import Mathlib

/-!
Verification development for the nanodescript repository.

Part A embeds `nanodescript/cell_transformation.py` (the transformation
algebra) over the real numbers: Python floats are idealised as `ℝ` and the
numpy/scipy matrix operations become Mathlib matrices over `Fin 3` / `Fin 4`.
-/

/-- Embeds the dataclass `CellTransformation` (cell_transformation.py).
Field order and defaults follow the source. -/
@[ext]
structure CellTransformation where
  magnification : ℝ := 1.0
  origin : ℝ × ℝ := (0.0, 0.0)
  x_reflection : Bool := false
  rotation : ℝ := 0.0

namespace CellTransformation

/-- `get_rotation_matrix`: scipy `Rotation.from_rotvec(rotation * [0,0,1])`
as a matrix, i.e. the z-axis rotation matrix. -/
noncomputable def get_rotation_matrix (t : CellTransformation) :
    Matrix (Fin 3) (Fin 3) ℝ :=
  !![Real.cos t.rotation, -Real.sin t.rotation, 0;
     Real.sin t.rotation, Real.cos t.rotation, 0;
     0, 0, 1]

/-- `get_magnification_matrix`: `magnification * np.eye(3)`. -/
noncomputable def get_magnification_matrix (t : CellTransformation) :
    Matrix (Fin 3) (Fin 3) ℝ :=
  t.magnification • (1 : Matrix (Fin 3) (Fin 3) ℝ)

/-- `get_xreflection_matrix`: `eye(3)` with entry `[0,0]` set to
`(-1) ** x_reflection`. -/
noncomputable def get_xreflection_matrix (t : CellTransformation) :
    Matrix (Fin 3) (Fin 3) ℝ :=
  !![(if t.x_reflection then (-1 : ℝ) else 1), 0, 0;
     0, 1, 0;
     0, 0, 1]

/-- `get_transformation_matrix`: the 4x4 identity whose top-left 3x3 block is
replaced by `scm @ (rom @ xrm)`, with the origin written into rows 0,1 of
column 3 when `with_translation` is set. -/
noncomputable def get_transformation_matrix (t : CellTransformation)
    (with_translation : Bool := false) : Matrix (Fin 4) (Fin 4) ℝ :=
  Matrix.of fun i j =>
    if hi : (i : ℕ) < 3 then
      if hj : (j : ℕ) < 3 then
        (t.get_magnification_matrix *
          (t.get_rotation_matrix * t.get_xreflection_matrix))
          ⟨(i : ℕ), hi⟩ ⟨(j : ℕ), hj⟩
      else
        if with_translation ∧ (i : ℕ) < 2 then
          (if (i : ℕ) = 0 then t.origin.1 else t.origin.2)
        else 0
    else
      if (j : ℕ) = 3 then 1 else 0

/-- `compose_transformations`: magnification multiplies, rotation adds,
x-reflection xors, and the inner origin is pushed through the outer 4x4
transformation matrix (without translation) as the 4-vector
`[ox, oy, 0, 0]`. -/
noncomputable def compose_transformations (self transfo : CellTransformation) :
    CellTransformation :=
  let compound_magnification := self.magnification * transfo.magnification
  let compound_rotation := self.rotation + transfo.rotation
  let compound_xreflection := xor self.x_reflection transfo.x_reflection
  let tmp : Fin 4 → ℝ := ![transfo.origin.1, transfo.origin.2, 0, 0]
  let moved := (self.get_transformation_matrix).mulVec tmp
  { magnification := compound_magnification
    origin := (self.origin.1 + moved 0, self.origin.2 + moved 1)
    x_reflection := compound_xreflection
    rotation := compound_rotation }

/-- The scalar `(-1) ** x_reflection` contributed by the mirror flag. -/
noncomputable def reflSign (t : CellTransformation) : ℝ :=
  if t.x_reflection then -1 else 1

end CellTransformation


/-!
Part B embeds the placement resolver
(`NanoscribeGdsHandler.find_nanoscribe_instances_and_transformations` in
describe_gds_handler.py).  A gdstk `Cell` is modelled as a tree node carrying
its (already computed) nanoscribe label together with its references; a gdstk
`Reference` carries the placement fields used by `CellTransformation` plus the
origin offsets that `apply_repetition` expands into fresh references.
-/

/-- A gdstk `Reference`, parametric in the cell type to allow nesting:
the referenced cell, the four placement fields, and the repetition offsets
that `apply_repetition` turns into one extra reference each. -/
structure GdsRefF (C : Type) where
  cell : C
  magnification : ℝ
  origin : ℝ × ℝ
  x_reflection : Bool
  rotation : ℝ
  repOffsets : List (ℝ × ℝ)

/-- A gdstk `Cell`: its `is_nanoscribe` property (set by the
`find_nanoscribe_cells` labeling pre-pass) and its list of references. -/
inductive GdsCell : Type where
  | mk : Bool → List (GdsRefF GdsCell) → GdsCell

/-- The `is_nanoscribe` property of the cell. -/
def GdsCell.isNanoscribe : GdsCell → Bool
  | .mk b _ => b

/-- `cell.references`. -/
def GdsCell.references : GdsCell → List (GdsRefF GdsCell)
  | .mk _ rs => rs

/-- `CellTransformation(reference=ref)`: copy the four placement fields of the
reference (`__post_init__` in cell_transformation.py). -/
noncomputable def GdsRefF.toTransformation (r : GdsRefF GdsCell) : CellTransformation :=
  { magnification := r.magnification
    origin := r.origin
    x_reflection := r.x_reflection
    rotation := r.rotation }

/-- gdstk `Reference.apply_repetition`: one new reference per repetition
offset, with the offset added to the origin and the repetition cleared. -/
noncomputable def GdsRefF.apply_repetition (r : GdsRefF GdsCell) : List (GdsRefF GdsCell) :=
  r.repOffsets.map fun o =>
    { r with origin := (r.origin.1 + o.1, r.origin.2 + o.2), repOffsets := [] }

/-- The loop `repetitions = []; for child in children: repetitions +=
child.apply_repetition(); children += repetitions` of
`find_nanoscribe_instances_and_transformations`. -/
noncomputable def expandReferences (children : List (GdsRefF GdsCell)) :
    List (GdsRefF GdsCell) :=
  children ++ children.flatMap GdsRefF.apply_repetition

mutual
/-- Weighted size of a cell tree: every reference counts its cell once per
repetition instance.  Used only as the termination measure of `resolve`. -/
def GdsCell.size : GdsCell → ℕ
  | .mk _ refs => 1 + GdsCell.sizeRefs refs
/-- Weighted size of a reference list. -/
def GdsCell.sizeRefs : List (GdsRefF GdsCell) → ℕ
  | [] => 0
  | r :: rs => (1 + r.repOffsets.length) * r.cell.size + GdsCell.sizeRefs rs
end

/-- `CellAssociation` (cell_association.py), restricted to the two fields the
resolver fills in. -/
structure CellAssociation where
  cell : GdsCell
  transformation : CellTransformation

/-- Total weighted size of a traversal queue. -/
noncomputable def queueSize (q : List (GdsCell × CellTransformation)) : ℕ :=
  (q.map fun p => p.1.size).sum

lemma GdsCell.size_pos (c : GdsCell) : 0 < c.size := by
  cases c with
  | mk b refs => simp [GdsCell.size]

/-- The FIFO while-loop of `find_nanoscribe_instances_and_transformations`:
pop the head; a nanoscribe cell is emitted and its children are not visited;
otherwise its expanded references are appended to the back of the queue with
the composed transformations. -/
noncomputable def resolve : List (GdsCell × CellTransformation) → List CellAssociation
  | [] => []
  | (c, t) :: rest =>
    if c.isNanoscribe then
      ⟨c, t⟩ :: resolve rest
    else
      resolve (rest ++ (expandReferences c.references).map
        fun r => (r.cell, t.compose_transformations r.toTransformation))
termination_by q => queueSize q
decreasing_by
  · simp [queueSize]
    have := c.size_pos
    omega
  · simp only [queueSize, List.map_append, List.sum_append, List.map_cons, List.sum_cons]
    have hexp : ((expandReferences c.references).map
        (fun r => (r.cell, t.compose_transformations r.toTransformation))).map
          (fun p => p.1.size) =
        (expandReferences c.references).map (fun r => r.cell.size) := by
      simp [List.map_map, Function.comp]
    rw [hexp]
    have hlt : ((expandReferences c.references).map fun r => r.cell.size).sum < c.size := by
      cases c with
      | mk b refs =>
        simp only [GdsCell.references, GdsCell.size, expandReferences,
          List.map_append, List.sum_append]
        have key : ∀ L : List (GdsRefF GdsCell),
            (L.map fun r => r.cell.size).sum +
            ((L.flatMap GdsRefF.apply_repetition).map fun r => r.cell.size).sum =
            GdsCell.sizeRefs L := by
          intro L
          induction L with
          | nil => simp [GdsCell.sizeRefs]
          | cons r rs ih =>
            simp only [List.map_cons, List.sum_cons, List.flatMap_cons, List.map_append,
              List.sum_append, GdsCell.sizeRefs]
            have happ : ((GdsRefF.apply_repetition r).map fun x => x.cell.size).sum =
                r.repOffsets.length * r.cell.size := by
              simp [GdsRefF.apply_repetition, List.map_map, Function.comp]
              induction r.repOffsets with
              | nil => simp
              | cons o os ih2 => simp [ih2]; ring
            rw [happ]
            have expand : (1 + r.repOffsets.length) * r.cell.size =
                r.cell.size + r.repOffsets.length * r.cell.size := by ring
            rw [expand]
            omega
        have := key refs
        omega
    omega

/-- A cell is, or reaches through references, a nanoscribe target. -/
inductive HasNanoscribe : GdsCell → Prop where
  | here (c : GdsCell) : c.isNanoscribe = true → HasNanoscribe c
  | via (c : GdsCell) (r : GdsRefF GdsCell) :
      r ∈ c.references → HasNanoscribe r.cell → HasNanoscribe c

/-- The handler fields touched by the resolver. -/
structure GdsHandlerState where
  topcell : GdsCell
  nanoscribe_cells_associations : List CellAssociation

/-- `find_nanoscribe_instances_and_transformations`: run the traversal from
the top cell with the identity transform; store the associations if any were
found, otherwise raise.  A raised `ValueError` is modelled as `Except.error`;
the caller keeps the unmodified handler in that case. -/
noncomputable def find_nanoscribe_instances_and_transformations
    (h : GdsHandlerState) : Except String GdsHandlerState :=
  let nanoscribe_asso := resolve [(h.topcell, {})]
  if nanoscribe_asso.isEmpty then
    Except.error "No nanoscribe print areas found in library"
  else
    Except.ok { h with nanoscribe_cells_associations := nanoscribe_asso }


/-!
Part D embeds the job assembler: the block-building methods of `GwlHandler`
(describe_gwl_handler.py) and `NanoscribeGdsHandler.create_print_job`
(describe_gds_handler.py).  Commands are modelled as a tagged type with
real-valued payloads; a raised exception is modelled as `Except.error`
carrying the command list accumulated at the moment of the raise (Python
mutates `self.gwl_commands` in place, so those commands survive the raise).
`pathlib`'s `is_relative_to`/`relative_to` pair is modelled as a string
prefix test.  The recipe is restricted to the keys these methods read.
-/

inductive GwlCmd where
  | comment (cmt : String)
  | invertZAxis (value : ℤ)
  | galvoScanMode
  | piezoScanMode
  | continuousMode
  | piezoSettlingTime (settlingtime : ℝ)
  | galvoAcceleration (value : ℝ)
  | stageVelocity (velocity : ℝ)
  | describeEmpty
  | moveStageX (val : ℝ)
  | moveStageY (val : ℝ)
  | describeInclude (gwl_path : String)
  | powerScaling (value : ℝ)
  | describeVar (name : String) (value : ℝ)

structure DescribeRecipeVals where
  scanMode : String
  invertZAxis : Bool
  galvoAcceleration : ℝ
  shellLaserPower : ℝ
  shellScanSpeed : ℝ
  coreLaserPower : ℝ
  coreScanSpeed : ℝ
  findInterfaceAt : ℝ

def add_header (g : List GwlCmd) : List GwlCmd :=
  g ++ [GwlCmd.comment "File Generated by DesCRIPT-python alpha"]

def add_system_initialisation (recipe : DescribeRecipeVals) (g : List GwlCmd) :
    List GwlCmd :=
  g ++ [GwlCmd.comment "System initialization",
        GwlCmd.invertZAxis (if recipe.invertZAxis then 1 else 0)]

noncomputable def add_writing_configuration (recipe : DescribeRecipeVals)
    (g : List GwlCmd) : Except (List GwlCmd) (List GwlCmd) :=
  let g := g ++ [GwlCmd.comment "Writing configuration"]
  if recipe.scanMode = "Galvo" then
    Except.ok (g ++ [GwlCmd.galvoScanMode, GwlCmd.continuousMode,
      GwlCmd.piezoSettlingTime 10,
      GwlCmd.galvoAcceleration recipe.galvoAcceleration,
      GwlCmd.stageVelocity 20000])
  else if recipe.scanMode = "Piezo" then
    Except.ok (g ++ [GwlCmd.piezoScanMode, GwlCmd.continuousMode,
      GwlCmd.piezoSettlingTime 10,
      GwlCmd.galvoAcceleration recipe.galvoAcceleration,
      GwlCmd.stageVelocity 20000])
  else
    Except.error g

noncomputable def add_writing_parameters (recipe : DescribeRecipeVals)
    (g : List GwlCmd) : List GwlCmd :=
  g ++ [GwlCmd.comment "Writing parameters",
        GwlCmd.powerScaling 1.0,
        GwlCmd.describeEmpty,
        GwlCmd.comment "Contour writing parameters",
        GwlCmd.describeVar "$contourLaserPower" recipe.shellLaserPower,
        GwlCmd.describeVar "$contourScanSpeed" recipe.shellScanSpeed,
        GwlCmd.describeEmpty,
        GwlCmd.comment "Solid hatch lines writing parameters",
        GwlCmd.describeVar "$solidLaserPower" recipe.coreLaserPower,
        GwlCmd.describeVar "$solidScanSpeed" recipe.coreScanSpeed,
        GwlCmd.describeVar "$interfacePos" recipe.findInterfaceAt]

structure JobAssociation where
  cellName : String
  origin : ℝ × ℝ
  include_file : String

def relativizeInclude (outDir incl : String) : String :=
  if outDir.isPrefixOf incl then incl.drop outDir.length else incl

structure JobHandlerState where
  gwl_commands : List GwlCmd
  describerecipe : DescribeRecipeVals
  print_origin : Option (ℝ × ℝ)
  out_dir : String
  nanoscribe_cells_associations : List JobAssociation

noncomputable def printLoop (outDir : String) (current_pos : ℝ × ℝ)
    (g : List GwlCmd) (k : ℕ) : List JobAssociation → List GwlCmd
  | [] => g
  | asso :: rest =>
    let printpos := asso.origin
    let move := (printpos.1 - current_pos.1, printpos.2 - current_pos.2)
    printLoop outDir printpos
      (g ++ [GwlCmd.describeEmpty,
             GwlCmd.comment ("Nanoscribe Zone " ++ toString k ++ ": " ++ asso.cellName),
             GwlCmd.moveStageX move.1,
             GwlCmd.moveStageY move.2,
             GwlCmd.describeInclude (relativizeInclude outDir asso.include_file)])
      (k + 1) rest

noncomputable def create_print_job (h : JobHandlerState) :
    Except (List GwlCmd) (List GwlCmd) :=
  let g0 := add_header h.gwl_commands
  let g1 := add_system_initialisation h.describerecipe g0
  let g2 := g1 ++ [GwlCmd.describeEmpty]
  match add_writing_configuration h.describerecipe g2 with
  | Except.error g => Except.error g
  | Except.ok g3 =>
    let g4 := g3 ++ [GwlCmd.describeEmpty]
    let g5 := add_writing_parameters h.describerecipe g4
    match h.print_origin with
    | none => Except.error g5
    | some origin =>
      Except.ok (printLoop h.out_dir origin g5 0 h.nanoscribe_cells_associations)

def movesX (g : List GwlCmd) : List ℝ :=
  g.filterMap fun c => match c with
    | GwlCmd.moveStageX v => some v
    | _ => none

def movesY (g : List GwlCmd) : List ℝ :=
  g.filterMap fun c => match c with
    | GwlCmd.moveStageY v => some v
    | _ => none


-- ===== Part C: instruction model (describe_commands / describe_gwl_handler) =====

/-! Character/string utilities over `List Char` -/

abbrev Chars := List Char

/-- Python `str.strip()` whitespace set. -/
def pyIsSpace (c : Char) : Bool :=
  c = ' ' || c = '\t' || c = '\n' || c = '\r' || c = '\x0b' || c = '\x0c'

def lstripChars (l : Chars) : Chars := l.dropWhile pyIsSpace

def rstripChars (l : Chars) : Chars := (l.reverse.dropWhile pyIsSpace).reverse

/-- Python `str.strip()`. -/
def stripChars (l : Chars) : Chars := rstripChars (lstripChars l)

def isDigitChar (c : Char) : Bool := 48 ≤ c.toNat && c.toNat ≤ 57

def charVal (c : Char) : ℕ := c.toNat - 48

/-- Decimal rendering of a natural number (Python `str(int)` for `n ≥ 0`). -/
def natRepr (n : ℕ) : Chars :=
  if n = 0 then ['0'] else ((Nat.digits 10 n).map Nat.digitChar).reverse

/-- Python `str` of an `int`. -/
def intRepr (m : ℤ) : Chars :=
  if m < 0 then '-' :: natRepr m.natAbs else natRepr m.natAbs

def valNat (l : Chars) : ℕ := l.foldl (fun a c => 10 * a + charVal c) 0

/-- Parse an all-digit, non-empty string. -/
def parseNat (l : Chars) : Option ℕ :=
  if l ≠ [] ∧ l.all isDigitChar then some (valNat l) else none

/-- Python `int(s)` on an already-stripped string: optional sign, then
decimal digits and nothing else. -/
def parseIntCore (l : Chars) : Option ℤ :=
  match l with
  | [] => none
  | c :: rest =>
    if c = '-' then (parseNat rest).map fun n => -(n : ℤ)
    else if c = '+' then (parseNat rest).map fun n => (n : ℤ)
    else (parseNat (c :: rest)).map fun n => (n : ℤ)

/-- Python `int(s)`: strip whitespace, then sign and digits. -/
def pyInt (s : Chars) : Option ℤ := parseIntCore (stripChars s)

-- lemmas

lemma digitChar_spec (d : ℕ) (h : d < 10) :
    isDigitChar (Nat.digitChar d) = true ∧ charVal (Nat.digitChar d) = d ∧
    pyIsSpace (Nat.digitChar d) = false := by
  interval_cases d <;> exact ⟨by decide, by decide, by decide⟩

lemma valNat_append_digit (l : Chars) (c : Char) :
    valNat (l ++ [c]) = 10 * valNat l + charVal c := by
  simp [valNat, List.foldl_append]

lemma valNat_digits (ds : List ℕ) (h : ∀ d ∈ ds, d < 10) :
    ∀ a : ℕ, ((ds.map Nat.digitChar).reverse).foldl (fun a c => 10 * a + charVal c) a =
      a * 10 ^ ds.length + Nat.ofDigits 10 ds := by
  induction ds with
  | nil => intro a; simp
  | cons d ds ih =>
    intro a
    have hd : d < 10 := h d (List.mem_cons_self d ds)
    have hds : ∀ x ∈ ds, x < 10 := fun x hx => h x (List.mem_cons_of_mem d hx)
    simp only [List.map_cons, List.reverse_cons, List.foldl_append, List.foldl_cons,
      List.foldl_nil]
    rw [ih hds]
    rw [(digitChar_spec d hd).2.1]
    rw [Nat.ofDigits_cons]
    simp [List.length_cons, pow_succ]
    ring

lemma natRepr_all_digits (n : ℕ) : ∀ c ∈ natRepr n, isDigitChar c = true := by
  intro c hc
  unfold natRepr at hc
  by_cases h : n = 0
  · simp [h] at hc
    rw [hc]; decide
  · rw [if_neg h] at hc
    rw [List.mem_reverse] at hc
    rcases List.mem_map.1 hc with ⟨d, hd, rfl⟩
    exact (digitChar_spec d (Nat.digits_lt_base (by norm_num) hd)).1

lemma natRepr_ne_nil (n : ℕ) : natRepr n ≠ [] := by
  unfold natRepr
  by_cases h : n = 0
  · simp [h]
  · simp [h, Nat.digits_ne_nil_iff_ne_zero.2 h]

lemma valNat_natRepr (n : ℕ) : valNat (natRepr n) = n := by
  unfold natRepr
  by_cases h : n = 0
  · simp [h, valNat, charVal]
  · simp only [h, if_false]
    have := valNat_digits (Nat.digits 10 n)
      (fun d hd => Nat.digits_lt_base (by norm_num) hd) 0
    unfold valNat
    rw [this]
    simp [Nat.ofDigits_digits]

lemma parseNat_natRepr (n : ℕ) : parseNat (natRepr n) = some n := by
  unfold parseNat
  rw [if_pos ⟨natRepr_ne_nil n, List.all_eq_true.2 (natRepr_all_digits n)⟩]
  rw [valNat_natRepr]

-- strip lemmas

lemma lstrip_cons_space (l : Chars) : lstripChars (' ' :: l) = lstripChars l := by
  simp [lstripChars, List.dropWhile_cons, pyIsSpace]

lemma rstrip_append_ws (l : Chars) (c : Char) (hc : pyIsSpace c = true) :
    rstripChars (l ++ [c]) = rstripChars l := by
  simp [rstripChars, List.dropWhile_cons, hc]

lemma strip_cons_space (l : Chars) : stripChars (' ' :: l) = stripChars l := by
  simp [stripChars, lstrip_cons_space]

lemma lstrip_append (l1 l2 : Chars) :
    lstripChars (l1 ++ l2) =
      if lstripChars l1 = [] then lstripChars l2 else lstripChars l1 ++ l2 := by
  induction l1 with
  | nil => simp [lstripChars]
  | cons c l1 ih =>
    by_cases hc : pyIsSpace c
    · simp [lstripChars, List.dropWhile_cons, hc] at ih ⊢
      exact ih
    · simp [lstripChars, List.dropWhile_cons, hc]

lemma strip_append_nl (l : Chars) : stripChars (l ++ ['\n']) = stripChars l := by
  unfold stripChars
  rw [lstrip_append]
  by_cases h : lstripChars l = []
  · rw [if_pos h, h]
    decide
  · rw [if_neg h]
    exact rstrip_append_ws _ _ (by decide)

lemma lstrip_no_ws (l : Chars) (h : ∀ c ∈ l, pyIsSpace c = false) :
    lstripChars l = l := by
  cases l with
  | nil => rfl
  | cons c cs =>
    simp [lstripChars, List.dropWhile_cons, h c (List.mem_cons_self c cs)]

lemma rstrip_no_ws (l : Chars) (h : ∀ c ∈ l, pyIsSpace c = false) :
    rstripChars l = l := by
  unfold rstripChars
  rw [show l.reverse.dropWhile pyIsSpace = l.reverse from ?_, List.reverse_reverse]
  cases hrev : l.reverse with
  | nil => rfl
  | cons c cs =>
    have hc : c ∈ l := by
      rw [← List.mem_reverse, hrev]; exact List.mem_cons_self c cs
    simp [List.dropWhile_cons, h c hc]

lemma strip_no_ws (l : Chars) (h : ∀ c ∈ l, pyIsSpace c = false) :
    stripChars l = l := by
  unfold stripChars
  rw [lstrip_no_ws l h, rstrip_no_ws l h]

-- int round trip

lemma isDigit_not_space (c : Char) (h : isDigitChar c = true) :
    pyIsSpace c = false := by
  by_contra hws
  rw [Bool.not_eq_false] at hws
  unfold pyIsSpace at hws
  simp only [Bool.or_eq_true, decide_eq_true_eq] at hws
  rcases hws with ((((h1 | h1) | h1) | h1) | h1) | h1 <;> subst h1 <;>
    exact absurd h (by decide)

lemma intRepr_no_ws (m : ℤ) : ∀ c ∈ intRepr m, pyIsSpace c = false := by
  intro c hc
  unfold intRepr at hc
  by_cases hm : m < 0
  · rw [if_pos hm] at hc
    rcases List.mem_cons.1 hc with rfl | hc
    · decide
    · exact isDigit_not_space c (natRepr_all_digits _ c hc)
  · rw [if_neg hm] at hc
    exact isDigit_not_space c (natRepr_all_digits _ c hc)

lemma isDigitChar_ne_signs (c : Char) (h : isDigitChar c = true) :
    c ≠ '-' ∧ c ≠ '+' := by
  constructor <;> intro he <;> subst he <;> simp [isDigitChar] at h

lemma parseIntCore_intRepr (m : ℤ) : parseIntCore (intRepr m) = some m := by
  by_cases hm : m < 0
  · unfold intRepr
    rw [if_pos hm]
    show (if ('-' : Char) = '-' then (parseNat (natRepr m.natAbs)).map fun n => -(n : ℤ)
      else if ('-' : Char) = '+' then (parseNat (natRepr m.natAbs)).map fun n => (n : ℤ)
      else (parseNat ('-' :: natRepr m.natAbs)).map fun n => (n : ℤ)) = some m
    rw [if_pos rfl, parseNat_natRepr]
    show some (-(m.natAbs : ℤ)) = some m
    congr 1
    omega
  · unfold intRepr
    rw [if_neg hm]
    obtain ⟨c, cs, hrepr⟩ : ∃ c cs, natRepr m.natAbs = c :: cs := by
      cases h : natRepr m.natAbs with
      | nil => exact absurd h (natRepr_ne_nil _)
      | cons c cs => exact ⟨c, cs, rfl⟩
    have hcd : isDigitChar c = true := by
      apply natRepr_all_digits
      rw [hrepr]; exact List.mem_cons_self c cs
    obtain ⟨hne1, hne2⟩ := isDigitChar_ne_signs c hcd
    rw [hrepr]
    show (if c = '-' then (parseNat cs).map fun n => -(n : ℤ)
      else if c = '+' then (parseNat cs).map fun n => (n : ℤ)
      else (parseNat (c :: cs)).map fun n => (n : ℤ)) = some m
    rw [if_neg hne1, if_neg hne2]
    rw [← hrepr, parseNat_natRepr]
    show some ((m.natAbs : ℤ)) = some m
    congr 1
    omega

lemma pyInt_space_intRepr (m : ℤ) : pyInt (' ' :: intRepr m) = some m := by
  unfold pyInt
  rw [strip_cons_space, strip_no_ws _ (intRepr_no_ws m), parseIntCore_intRepr]

lemma pyInt_space_intRepr_nl (m : ℤ) : pyInt ((' ' :: intRepr m) ++ ['\n']) = some m := by
  unfold pyInt
  rw [show (' ' :: intRepr m) ++ ['\n'] = ' ' :: (intRepr m ++ ['\n']) from rfl]
  rw [strip_cons_space, strip_append_nl, strip_no_ws _ (intRepr_no_ws m), parseIntCore_intRepr]

-- float codec: a Python float value is idealised as an exact decimal
-- m / 10 ^ k in canonical form (k = 0, or m not divisible by 10)

/-- The `k` base-10 digits of `r` (most significant first), zero-padded. -/
def natDigitsPadded : ℕ → ℕ → Chars
  | _, 0 => []
  | r, (k + 1) => natDigitsPadded (r / 10) k ++ [Nat.digitChar (r % 10)]

/-- Digits of the float `a / 10 ^ k` (`a : ℕ`) without the sign. -/
def floatBody (a k : ℕ) : Chars :=
  if k = 0 then natRepr a ++ ['.', '0']
  else natRepr (a / 10 ^ k) ++ '.' :: natDigitsPadded (a % 10 ^ k) k

/-- Python `str` of the float `m / 10 ^ k` (canonical, non-exponent range). -/
def floatRepr (m : ℤ) (k : ℕ) : Chars :=
  (if m < 0 then ['-'] else []) ++ floatBody m.natAbs k

/-- Reduce a parsed decimal to canonical form (drop trailing zeros). -/
def canonFloat : ℤ → ℕ → ℤ × ℕ
  | m, 0 => (m, 0)
  | m, (k + 1) => if m % 10 = 0 then canonFloat (m / 10) k else (m, k + 1)

def applySign (neg : Bool) (n : ℕ) : ℤ := if neg then -(n : ℤ) else (n : ℤ)

def splitSign (l : Chars) : Bool × Chars :=
  match l with
  | [] => (false, [])
  | c :: rest =>
    if c = '-' then (true, rest)
    else if c = '+' then (false, rest)
    else (false, c :: rest)

/-- Python `float(s)` on an already-stripped string: optional sign, digits
with an optional fractional part (exponent forms are outside the model). -/
def parseFloatCore (l : Chars) : Option (ℤ × ℕ) :=
  let s := splitSign l
  let neg := s.1
  let body := s.2
  let ip := body.takeWhile isDigitChar
  let rest := body.drop ip.length
  match rest with
  | [] => if ip.isEmpty then none else some (applySign neg (valNat ip), 0)
  | c :: rest2 =>
    if c = '.' then
      if rest2.all isDigitChar && (!ip.isEmpty || !rest2.isEmpty) then
        some (canonFloat (applySign neg (valNat ip * 10 ^ rest2.length + valNat rest2))
          rest2.length)
      else none
    else none

/-- Python `float(s)`. -/
def pyFloat (s : Chars) : Option (ℤ × ℕ) := parseFloatCore (stripChars s)

lemma natDigitsPadded_all (r k : ℕ) : ∀ c ∈ natDigitsPadded r k, isDigitChar c = true := by
  induction k generalizing r with
  | zero => intro c hc; simp [natDigitsPadded] at hc
  | succ k ih =>
    intro c hc
    unfold natDigitsPadded at hc
    rcases List.mem_append.1 hc with hc | hc
    · exact ih (r / 10) c hc
    · rw [List.mem_singleton.1 hc]
      exact (digitChar_spec (r % 10) (Nat.mod_lt r (by norm_num))).1

lemma natDigitsPadded_length (r k : ℕ) : (natDigitsPadded r k).length = k := by
  induction k generalizing r with
  | zero => simp [natDigitsPadded]
  | succ k ih => simp [natDigitsPadded, ih]

lemma valNat_natDigitsPadded (r k : ℕ) (h : r < 10 ^ k) :
    valNat (natDigitsPadded r k) = r := by
  induction k generalizing r with
  | zero =>
    simp [natDigitsPadded, valNat]
    omega
  | succ k ih =>
    unfold natDigitsPadded
    rw [valNat_append_digit]
    rw [ih (r / 10) (by omega)]
    rw [(digitChar_spec (r % 10) (Nat.mod_lt r (by norm_num))).2.1]
    omega

lemma takeWhile_digits_dot (x rest : Chars) (hx : ∀ c ∈ x, isDigitChar c = true) :
    (x ++ '.' :: rest).takeWhile isDigitChar = x := by
  induction x with
  | nil =>
    have hdot : isDigitChar '.' = false := by decide
    simp [List.takeWhile_cons, hdot]
  | cons c cs ih =>
    simp only [List.cons_append, List.takeWhile_cons]
    rw [hx c (List.mem_cons_self c cs)]
    simp [ih fun d hd => hx d (List.mem_cons_of_mem c hd)]

lemma canonFloat_of_canonical (m : ℤ) (k : ℕ) (h : k = 0 ∨ m % 10 ≠ 0) :
    canonFloat m k = (m, k) := by
  cases k with
  | zero => rfl
  | succ k =>
    rcases h with h | h
    · exact absurd h (by omega)
    · unfold canonFloat
      rw [if_neg h]

lemma canonFloat_mul10 (m : ℤ) : canonFloat (m * 10) 1 = (m, 0) := by
  unfold canonFloat
  rw [if_pos (Int.mul_emod_left m 10)]
  rw [Int.mul_ediv_cancel m (by norm_num)]
  rfl

lemma floatBody_head_digit (a k : ℕ) :
    ∃ c cs, floatBody a k = c :: cs ∧ isDigitChar c = true := by
  unfold floatBody
  by_cases hk : k = 0
  · rw [if_pos hk]
    obtain ⟨c, cs, hrepr⟩ : ∃ c cs, natRepr a = c :: cs := by
      cases h : natRepr a with
      | nil => exact absurd h (natRepr_ne_nil _)
      | cons c cs => exact ⟨c, cs, rfl⟩
    refine ⟨c, cs ++ ['.', '0'], by rw [hrepr]; rfl, ?_⟩
    exact natRepr_all_digits a c (by rw [hrepr]; exact List.mem_cons_self c cs)
  · rw [if_neg hk]
    obtain ⟨c, cs, hrepr⟩ : ∃ c cs, natRepr (a / 10 ^ k) = c :: cs := by
      cases h : natRepr (a / 10 ^ k) with
      | nil => exact absurd h (natRepr_ne_nil _)
      | cons c cs => exact ⟨c, cs, rfl⟩
    refine ⟨c, cs ++ '.' :: natDigitsPadded (a % 10 ^ k) k, by rw [hrepr]; rfl, ?_⟩
    exact natRepr_all_digits _ c (by rw [hrepr]; exact List.mem_cons_self c cs)

lemma splitSign_floatRepr (m : ℤ) (k : ℕ) :
    splitSign (floatRepr m k) = (decide (m < 0), floatBody m.natAbs k) := by
  unfold floatRepr
  by_cases hm : m < 0
  · rw [if_pos hm]
    simp only [splitSign, List.cons_append, List.nil_append]
    simp [hm]
  · rw [if_neg hm]
    simp only [List.nil_append]
    obtain ⟨c, cs, hbody, hcd⟩ := floatBody_head_digit m.natAbs k
    obtain ⟨hne1, hne2⟩ := isDigitChar_ne_signs c hcd
    rw [hbody]
    simp only [splitSign]
    rw [if_neg hne1, if_neg hne2]
    simp [hm, ← hbody]

lemma parseFloatCore_body (neg : Bool) (ipn : ℕ) (frac : Chars) (l : Chars)
    (hsplit : splitSign l = (neg, natRepr ipn ++ '.' :: frac))
    (hfracdig : ∀ c ∈ frac, isDigitChar c = true) :
    parseFloatCore l =
      some (canonFloat (applySign neg (valNat (natRepr ipn) * 10 ^ frac.length +
        valNat frac)) frac.length) := by
  unfold parseFloatCore
  rw [hsplit]
  simp only
  rw [takeWhile_digits_dot (natRepr ipn) frac (natRepr_all_digits ipn)]
  rw [List.drop_left]
  show (if ('.' : Char) = '.' then
      if frac.all isDigitChar && (!(natRepr ipn).isEmpty || !frac.isEmpty) then
        some (canonFloat (applySign neg (valNat (natRepr ipn) * 10 ^ frac.length +
          valNat frac)) frac.length)
      else none
    else none) = some (canonFloat (applySign neg (valNat (natRepr ipn) * 10 ^ frac.length +
      valNat frac)) frac.length)
  rw [if_pos rfl, if_pos ?hcond]
  case hcond =>
    rw [Bool.and_eq_true]
    constructor
    · exact List.all_eq_true.2 hfracdig
    · rw [Bool.or_eq_true]
      left
      rw [Bool.not_eq_true']
      rw [List.isEmpty_eq_false]
      exact natRepr_ne_nil ipn

lemma applySign_decide_mul (m : ℤ) (x : ℕ) (hx : (x : ℤ) = |m| * 10) :
    applySign (decide (m < 0)) x = m * 10 := by
  unfold applySign
  by_cases hm : m < 0
  · rw [if_pos (by simpa using hm), hx, abs_of_neg hm]
    ring
  · rw [if_neg (by simpa using hm), hx, abs_of_nonneg (by omega)]

lemma applySign_decide (m : ℤ) : applySign (decide (m < 0)) m.natAbs = m := by
  unfold applySign
  by_cases hm : m < 0
  · rw [if_pos (by simpa using hm)]
    omega
  · rw [if_neg (by simpa using hm)]
    omega

lemma parseFloatCore_floatRepr (m : ℤ) (k : ℕ) (hcanon : k = 0 ∨ m % 10 ≠ 0) :
    parseFloatCore (floatRepr m k) = some (m, k) := by
  by_cases hk : k = 0
  · subst hk
    have hsplit : splitSign (floatRepr m 0) =
        (decide (m < 0), natRepr m.natAbs ++ '.' :: ['0']) := by
      rw [splitSign_floatRepr]
      unfold floatBody
      rfl
    rw [parseFloatCore_body (decide (m < 0)) m.natAbs ['0'] _ hsplit
      (by intro c hc; rw [List.mem_singleton.1 hc]; decide)]
    rw [valNat_natRepr]
    have hv : valNat ['0'] = 0 := by decide
    rw [hv]
    have harg : applySign (decide (m < 0)) (m.natAbs * 10 ^ List.length ['0'] + 0) =
        m * 10 := by
      apply applySign_decide_mul
      simp only [List.length_singleton, pow_one]
      push_cast
      rw [Int.abs_eq_natAbs]
      ring
    rw [harg]
    have : List.length ['0'] = 1 := rfl
    rw [this, canonFloat_mul10]
  · have hm10 : m % 10 ≠ 0 := by
      rcases hcanon with h | h
      · exact absurd h hk
      · exact h
    have hsplit : splitSign (floatRepr m k) =
        (decide (m < 0), natRepr (m.natAbs / 10 ^ k) ++ '.' ::
          natDigitsPadded (m.natAbs % 10 ^ k) k) := by
      rw [splitSign_floatRepr]
      unfold floatBody
      rw [if_neg hk]
    rw [parseFloatCore_body _ _ _ _ hsplit (natDigitsPadded_all _ k)]
    rw [valNat_natRepr, natDigitsPadded_length]
    rw [valNat_natDigitsPadded _ k (Nat.mod_lt _ (by positivity))]
    have hsum : m.natAbs / 10 ^ k * 10 ^ k + m.natAbs % 10 ^ k = m.natAbs := by
      rw [Nat.mul_comm (m.natAbs / 10 ^ k) (10 ^ k)]
      exact Nat.div_add_mod m.natAbs (10 ^ k)
    rw [hsum, applySign_decide]
    rw [canonFloat_of_canonical m k (Or.inr hm10)]

lemma floatRepr_no_ws (m : ℤ) (k : ℕ) : ∀ c ∈ floatRepr m k, pyIsSpace c = false := by
  intro c hc
  unfold floatRepr at hc
  rcases List.mem_append.1 hc with hc | hc
  · by_cases hm : m < 0
    · rw [if_pos hm] at hc
      rw [List.mem_singleton.1 hc]
      decide
    · rw [if_neg hm] at hc
      simp at hc
  · unfold floatBody at hc
    by_cases hk : k = 0
    · rw [if_pos hk] at hc
      rcases List.mem_append.1 hc with hc | hc
      · exact isDigit_not_space c (natRepr_all_digits _ c hc)
      · rcases List.mem_cons.1 hc with rfl | hc
        · decide
        · rw [List.mem_singleton.1 hc]; decide
    · rw [if_neg hk] at hc
      rcases List.mem_append.1 hc with hc | hc
      · exact isDigit_not_space c (natRepr_all_digits _ c hc)
      · rcases List.mem_cons.1 hc with rfl | hc
        · decide
        · exact isDigit_not_space c (natDigitsPadded_all _ _ c hc)

lemma pyFloat_space_floatRepr (m : ℤ) (k : ℕ) (hcanon : k = 0 ∨ m % 10 ≠ 0) :
    pyFloat (' ' :: floatRepr m k) = some (m, k) := by
  unfold pyFloat
  rw [strip_cons_space, strip_no_ws _ (floatRepr_no_ws m k),
    parseFloatCore_floatRepr m k hcanon]

lemma pyFloat_space_floatRepr_nl (m : ℤ) (k : ℕ) (hcanon : k = 0 ∨ m % 10 ≠ 0) :
    pyFloat ((' ' :: floatRepr m k) ++ ['\n']) = some (m, k) := by
  unfold pyFloat
  rw [show (' ' :: floatRepr m k) ++ ['\n'] = ' ' :: (floatRepr m k ++ ['\n']) from rfl]
  rw [strip_cons_space, strip_append_nl, strip_no_ws _ (floatRepr_no_ws m k),
    parseFloatCore_floatRepr m k hcanon]

/-! The instruction model (describe_commands.py).  A command instance is a
kind index into the registry table plus the list of its field values. -/

/-- A Python attribute value of a command: int, float (exact decimal
`m / 10 ^ k`), or string. -/
inductive PyVal where
  | pint : ℤ → PyVal
  | pfloat : ℤ → ℕ → PyVal
  | pstr : Chars → PyVal
deriving DecidableEq, Repr

/-- The Python type of a field's default value, used by the default `parse`
to cast the incoming text. -/
inductive FieldTy where
  | tInt
  | tFloat
  | tStr
deriving DecidableEq, Repr

/-- Python `str()` of a field value. -/
def pyStrVal : PyVal → Chars
  | .pint n => intRepr n
  | .pfloat m k => floatRepr m k
  | .pstr s => s

def PyVal.ty : PyVal → FieldTy
  | .pint _ => .tInt
  | .pfloat _ _ => .tFloat
  | .pstr _ => .tStr

/-- A float value is stored canonically; ints and strings always are. -/
def PyVal.canonical : PyVal → Bool
  | .pfloat m k => k == 0 || !(m % 10 == 0)
  | _ => true

/-- `type(v)(valstr)`: the cast the default `DescribeCommand.parse` applies. -/
def pyCast (ty : FieldTy) (s : Chars) : Except Chars PyVal :=
  match ty with
  | .tInt =>
    match pyInt s with
    | some n => .ok (.pint n)
    | none => .error s
  | .tFloat =>
    match pyFloat s with
    | some (m, k) => .ok (.pfloat m k)
    | none => .error s
  | .tStr => .ok (.pstr s)

/-- How a command kind renders itself (`__str__`). -/
inductive StrStyle where
  /-- The base-class default: class name, a space, the space-joined values. -/
  | default
  /-- Default plus a trailing newline (XOffset, YOffset, ZOffset,
  StageVelocity). -/
  | defaultNL
  /-- Class name then the single string field in double quotes (WriteText,
  CapturePhoto, MessageOut, SaveMessages). -/
  | quoted
  /-- A fixed keyword then the single field (include, if, elif, for, Comment). -/
  | keyword (kw : Chars)
  /-- A fixed literal line (else, end, break, continue, the empty command). -/
  | bare (txt : Chars)
  /-- `var/local/set $name = value`. -/
  | varAssign (kw : Chars)
  /-- UnknownDescribeCommand: the stored line verbatim. -/
  | verbatim
deriving DecidableEq, Repr

/-- Which `parse` implementation a kind uses. -/
inductive ParseStyle where
  /-- The base-class default: cast the value string into every field. -/
  | default
  /-- `Describe_var`/`Describe_local`/`Describe_set`. -/
  | varParse
  /-- `Describe_include.parse`, whose validity test always raises. -/
  | includeParse
deriving DecidableEq, Repr

/-- One entry of the command catalog: class name, fields (in `__dict__`
order) with the Python type of their defaults, and the str/parse styles. -/
structure KindSpec where
  clsName : Chars
  fields : List (Chars × FieldTy)
  style : StrStyle
  pstyle : ParseStyle
deriving DecidableEq, Repr

/-- A command instance: index of its kind in the registry plus its current
field values. -/
structure DescribeCommandInst where
  kind : ℕ
  vals : List PyVal
deriving DecidableEq, Repr

/-- 0-argument kind with default rendering and parsing. -/
def mkKind0 (name : String) : KindSpec :=
  ⟨name.toList, [], .default, .default⟩

/-- Single-float-field kind with default rendering and parsing. -/
def mkKindF (name field : String) : KindSpec :=
  ⟨name.toList, [(field.toList, .tFloat)], .default, .default⟩

/-- Single-int-field kind with default rendering and parsing. -/
def mkKindI (name field : String) : KindSpec :=
  ⟨name.toList, [(field.toList, .tInt)], .default, .default⟩

/-- Single-string-field kind with default rendering and parsing. -/
def mkKindS (name field : String) : KindSpec :=
  ⟨name.toList, [(field.toList, .tStr)], .default, .default⟩

/-- Single-float-field kind whose custom `__str__` appends a newline. -/
def mkKindFNL (name field : String) : KindSpec :=
  ⟨name.toList, [(field.toList, .tFloat)], .defaultNL, .default⟩

/-- Single-string-field kind whose custom `__str__` double-quotes the field. -/
def mkKindQ (name field : String) : KindSpec :=
  ⟨name.toList, [(field.toList, .tStr)], .quoted, .default⟩

/-- The catalog of `DescribeCommand` subclasses in definition order, as
collected by `_build_commands_dictionary` via `__subclasses__()`.
`COMMENT_CHAR` is imported by describe_commands.py from
nanodescript.constants but is absent from the sources; modelled from the
spec ("a single designated comment character") as the percent sign
(`Char.ofNat 37`), the GWL comment marker. -/
def available_describe_commands : List KindSpec :=
  [⟨"UnknownDescribeCommand".toList, [("strcmd".toList, .tStr)], .verbatim, .default⟩,
   mkKind0 "PiezoScanMode",
   mkKind0 "StageScanMode",
   mkKind0 "GalvoScanMode",
   mkKind0 "PulsedMode",
   mkKind0 "ContinuousMode",
   mkKind0 "LogMode",
   mkKind0 "ConnectPointsOn",
   mkKind0 "ConnectPointsOff",
   mkKindF "PowerScaling" "value",
   mkKindF "LaserPower" "value",
   mkKindF "PointDistance" "value",
   mkKindI "UpdateRate" "value",
   mkKindF "ScanSpeed" "value",
   mkKindF "ExposureTime" "value",
   mkKindF "SettlingTime" "value",
   mkKindF "PiezoSettlingTime" "settlingtime",
   mkKindF "GalvoSettlingTime" "settlingtime",
   mkKindI "LineStartMode" "value",
   mkKindI "LineNumber" "value",
   mkKindI "LineDistance" "value",
   mkKindI "PolyLineMode" "value",
   mkKind0 "PowerValues",
   mkKind0 "PowerValuesOn",
   mkKind0 "PowerValuesOff",
   mkKind0 "MeanderOn",
   mkKind0 "MeanderOff",
   mkKindI "Wait" "value",
   mkKind0 "Write",
   mkKindF "GalvoAcceleration" "value",
   mkKindFNL "XOffset" "val",
   mkKindFNL "YOffset" "val",
   mkKindFNL "ZOffset" "val",
   mkKindF "PiezoXOffset" "val",
   mkKindF "PiezoYOffset" "val",
   mkKindF "PiezoZOffset" "val",
   mkKindF "GalvoXOffset" "val",
   mkKindF "GalvoYOffset" "val",
   mkKindF "GalvoZOffset" "val",
   mkKindF "MoveStageX" "val",
   mkKindF "MoveStageY" "val",
   mkKindF "GotoX" "val",
   mkKindF "GotoY" "val",
   mkKindF "StageGotoX" "val",
   mkKindF "StageGotoY" "val",
   mkKindF "PiezoGotoX" "val",
   mkKindF "PiezoGotoY" "val",
   mkKindF "PiezoGotoZ" "val",
   mkKind0 "CenterStage",
   mkKindF "AddZDrivePosition" "val",
   mkKindI "PerfectShape" "val",
   mkKind0 "PerfectShapeOff",
   mkKind0 "PerfectShapeQuality",
   mkKind0 "PerfectShapeIntermediate",
   mkKind0 "PerfectShapeFast",
   mkKindS "PsLoadPowerProfiles" "lp_file",
   mkKindS "PsPowerProfiles" "lp",
   mkKindF "PsPowerSlope" "val",
   ⟨"StageVelocity".toList, [("velocity".toList, .tInt)], .defaultNL, .default⟩,
   ⟨"Describe_include".toList, [("gwl_path".toList, .tStr)], .keyword "include".toList, .includeParse⟩,
   ⟨"Describe_repeat".toList, [("value".toList, .tInt)], .default, .default⟩,
   ⟨"Describe_var".toList, [("name".toList, .tStr), ("value".toList, .tFloat)], .varAssign "var".toList, .varParse⟩,
   ⟨"Describe_local".toList, [("name".toList, .tStr), ("value".toList, .tFloat)], .varAssign "local".toList, .varParse⟩,
   ⟨"Describe_set".toList, [("name".toList, .tStr), ("value".toList, .tFloat)], .varAssign "set".toList, .varParse⟩,
   ⟨"Describe_empty".toList, [], .bare "".toList, .default⟩,
   ⟨"Describe_if".toList, [("if_condition".toList, .tStr)], .keyword "if".toList, .default⟩,
   ⟨"Describe_elif".toList, [("elif_condition".toList, .tStr)], .keyword "elif".toList, .default⟩,
   ⟨"Describe_else".toList, [], .bare "else".toList, .default⟩,
   ⟨"Describe_end".toList, [], .bare "end".toList, .default⟩,
   ⟨"Describe_for".toList, [("for_condition".toList, .tStr)], .keyword "for".toList, .default⟩,
   ⟨"Describe_while".toList, [("bool_condition".toList, .tStr)], .default, .default⟩,
   ⟨"Describe_break".toList, [], .bare "break".toList, .default⟩,
   ⟨"Describe_continue".toList, [], .bare "continue".toList, .default⟩,
   mkKindF "AddScanSpeed" "val",
   mkKindF "AddLaserPower" "val",
   mkKindF "AddExposureTime" "val",
   mkKindF "AddPowerScaling" "val",
   mkKindF "AddLineNumber" "val",
   mkKindF "AddLineDistance" "val",
   mkKindF "AddXOffset" "val",
   mkKindF "AddYOffset" "val",
   mkKindF "AddZOffset" "val",
   mkKindF "AddDefocus" "val",
   mkKindF "AddUpdateRate" "val",
   mkKindF "AddPointDistance" "val",
   mkKindF "MultScanSpeed" "val",
   mkKindF "MultLaserPower" "val",
   mkKindF "MultExposureTime" "val",
   mkKindF "MultPowerScaling" "val",
   mkKindF "MultLineNumber" "val",
   mkKindF "MultLineDistance" "val",
   mkKindF "MultXOffset" "val",
   mkKindF "MultYOffset" "val",
   mkKindF "MultZOffset" "val",
   mkKindF "MultDefocus" "val",
   mkKindF "MultUpdateRate" "val",
   mkKindF "MultPointDistance" "val",
   mkKindQ "WriteText" "text",
   mkKindF "TextPositionX" "textoffset",
   mkKindF "TextPositionY" "textoffset",
   mkKindF "TextPositionZ" "textoffset",
   mkKindF "LineSpacingX" "linespacing",
   mkKindF "LineSpacingY" "linespacing",
   mkKindF "LineSpacingZ" "linespacing",
   mkKindF "TextLaserPower" "laserpower",
   mkKindF "TextPointDistance" "pointdistance",
   mkKindF "TextScanSpeed" "scanspeed",
   mkKindF "TextFontSize" "fontsize",
   mkKindI "DefocusFactor" "defocus",
   mkKindI "MeasureTilt" "numpts",
   mkKind0 "TiltCorrectionOn",
   mkKind0 "TiltCorrectionOff",
   mkKindF "ManualTiltX" "tilt",
   mkKindF "ManualTiltY" "tilt",
   mkKindF "AccelerationTime" "time",
   mkKindF "DecelerationTime" "time",
   mkKindF "Acceleration" "value",
   mkKindI "Deceleration" "value",
   mkKindF "FindInterfaceAt" "value",
   mkKindF "InterfaceMax" "x_yyy",
   mkKindF "InterfaceMin" "x_yyy",
   mkKind0 "ResetInterface",
   mkKindF "InterfacePosition" "value",
   mkKind0 "InterfaceAccuracyHigh",
   mkKind0 "InterfaceAccuracyDefault",
   mkKind0 "InterfaceAccuracyLow",
   mkKindF "SamplePosition" "value",
   mkKindI "ChooseObjective" "value",
   mkKindI "InvertZAxis" "value",
   mkKindQ "CapturePhoto" "imgname",
   mkKind0 "TimeStampOn",
   mkKind0 "TimeStampOff",
   mkKindQ "MessageOut" "message",
   mkKind0 "DebugModeOn",
   mkKind0 "DebugModeOff",
   mkKind0 "ShowParameter",
   mkKindS "ShowVar" "varname",
   mkKindQ "SaveMessages" "message",
   mkKind0 "Pause",
   mkKind0 "ZDrivePosition",
   mkKind0 "NewStructure",
   mkKind0 "ManualControl",
   mkKind0 "ReloadIni",
   mkKind0 "Recalibrate",
   ⟨"Comment".toList, [("cmtline".toList, .tStr)], .keyword ([Char.ofNat 37]), .default⟩]

/-- Registry key of a kind: the class name with the `Describe` prefix
stripped, and the comment character for `Comment`
(`_build_commands_dictionary`). -/
def keyOf (sp : KindSpec) : Chars :=
  if ("Describe".toList).isPrefixOf sp.clsName then sp.clsName.drop 8
  else if sp.clsName = "Comment".toList then [Char.ofNat 37]
  else sp.clsName

/-- Python `" ".join`. -/
def joinSpace : List Chars → Chars
  | [] => []
  | [x] => x
  | x :: xs => x ++ ' ' :: joinSpace xs

def headString (vals : List PyVal) : Chars :=
  match vals with
  | v :: _ => pyStrVal v
  | [] => []

/-- `str(command)` per the kind's `__str__`. -/
def renderCmd (x : DescribeCommandInst) : Chars :=
  match available_describe_commands[x.kind]? with
  | none => []
  | some sp =>
    match sp.style with
    | .default => sp.clsName ++ ' ' :: joinSpace (x.vals.map pyStrVal)
    | .defaultNL => sp.clsName ++ ' ' :: joinSpace (x.vals.map pyStrVal) ++ ['\n']
    | .quoted => sp.clsName ++ ' ' :: '"' :: headString x.vals ++ ['"']
    | .keyword kw => kw ++ ' ' :: headString x.vals
    | .bare txt => txt
    | .varAssign kw =>
      match x.vals with
      | [n, v] => kw ++ ' ' :: pyStrVal n ++ ' ' :: '=' :: ' ' :: pyStrVal v
      | _ => kw
    | .verbatim => headString x.vals

/-- The `\w` character class of `_check_var_name`'s regex. -/
def isWordChar (c : Char) : Bool :=
  isDigitChar c || (97 ≤ c.toNat && c.toNat ≤ 122) ||
    (65 ≤ c.toNat && c.toNat ≤ 90) || c = '_'

/-- `_check_var_name`: `$` followed by one or more word characters. -/
def _check_var_name (varstring : Chars) : Bool :=
  match varstring with
  | c :: rest => c = '$' && !rest.isEmpty && rest.all isWordChar
  | [] => false

/-- `_parse_var_value`: try int, then float, else single-quote the string. -/
def _parse_var_value (valstr : Chars) : PyVal :=
  match pyInt valstr with
  | some n => .pint n
  | none =>
    match pyFloat valstr with
    | some (m, k) => .pfloat m k
    | none => .pstr (Char.ofNat 39 :: valstr ++ [Char.ofNat 39])

/-- `_parse_var_str`: split at `=`, validate the name, parse the value. -/
def _parse_var_str (varstr : Chars) : Except Chars (Chars × PyVal) :=
  let varstr := stripChars varstr
  match varstr.splitOn '=' with
  | s0 :: s1 :: _ =>
    let name := stripChars s0
    let value := stripChars s1
    if _check_var_name name then
      if value.isEmpty then .error varstr
      else .ok (name, _parse_var_value value)
    else .error varstr
  | _ => .error varstr

/-- The kind's `parse` method applied to the remainder of the line. -/
def kindParse (i : ℕ) (sp : KindSpec) (valstr : Chars) :
    Except Chars DescribeCommandInst :=
  match sp.pstyle with
  | .default =>
    (sp.fields.mapM fun f => pyCast f.2 valstr).map fun vs =>
      DescribeCommandInst.mk i vs
  | .varParse =>
    (_parse_var_str valstr).map fun nv =>
      DescribeCommandInst.mk i [.pstr nv.1, nv.2]
  | .includeParse => .error valstr

/-- The `for name in available_describe_commands.keys()` loop of
`parse_describe_line`: note that the `elif accept_unknown` branch sits
inside the loop, so it fires on the first non-matching key. -/
def parseLoopAux (idx : ℕ) :
    List KindSpec → Chars → Bool → Except Chars DescribeCommandInst
  | [], line, _ => .error line
  | sp :: rest, line, accept_unknown =>
    if (keyOf sp).isPrefixOf line then
      kindParse idx sp (line.drop (keyOf sp).length)
    else if accept_unknown then
      .ok ⟨0, [.pstr line]⟩
    else
      parseLoopAux (idx + 1) rest line accept_unknown

/-- `parse_describe_line`. -/
def parse_describe_line (line : Chars) (accept_unknown : Bool := true) :
    Except Chars DescribeCommandInst :=
  parseLoopAux 0 available_describe_commands line accept_unknown

/-- The header comment appended by `GwlHandler.add_header`. -/
def headerCmd : DescribeCommandInst :=
  ⟨144, [.pstr "File Generated by DesCRIPT-python alpha".toList]⟩

/-- The per-line loop of `GwlHandler.read_job_file`: strip each line, skip
it when empty, otherwise parse and append. -/
def readLinesLoop (accept : Bool) :
    List DescribeCommandInst → List Chars → Except Chars (List DescribeCommandInst)
  | acc, [] => .ok acc
  | acc, l :: ls =>
    let line := stripChars l
    if line.isEmpty then readLinesLoop accept acc ls
    else
      match parse_describe_line line accept with
      | .error e => .error e
      | .ok cmd => readLinesLoop accept (acc ++ [cmd]) ls

/-- `GwlHandler.read_job_file` on the in-memory command list. -/
def read_job_file (lines : List Chars) (gwl_commands : List DescribeCommandInst)
    (reset : Bool := true) (accept_unknown_commands : Bool := true) :
    Except Chars (List DescribeCommandInst) :=
  readLinesLoop accept_unknown_commands
    (if reset then [headerCmd] else gwl_commands) lines

/-- `GwlHandler.get_gwlstrings`. -/
def get_gwlstrings (cmds : List DescribeCommandInst) : List Chars :=
  cmds.map renderCmd

/-- Kinds for which the round-trip is claimed in the amended C4: default
rendering (possibly newline-terminated), default parsing, at most one
non-string field, a registry key equal to the rendered class name, and no
earlier registry key shadowing it. -/
def goodKind (i : ℕ) : Bool :=
  match available_describe_commands[i]? with
  | none => false
  | some sp =>
    (sp.style == StrStyle.default || sp.style == StrStyle.defaultNL) &&
    (sp.pstyle == ParseStyle.default) &&
    (keyOf sp == sp.clsName) &&
    decide (sp.fields.length ≤ 1) &&
    sp.fields.all (fun f => !(f.2 == FieldTy.tStr)) &&
    (available_describe_commands.take i).all
      (fun sp' => !((keyOf sp').isPrefixOf sp.clsName) &&
        (keyOf sp').all (fun c => !(c = ' ')))

/-- The instance's values match its kind's field schema (count, Python
types, canonical floats). -/
def wellFormedCmd (x : DescribeCommandInst) : Bool :=
  match available_describe_commands[x.kind]? with
  | none => false
  | some sp =>
    (x.vals.length == sp.fields.length) &&
    (List.zip x.vals sp.fields).all fun p => (p.1.ty == p.2.2) && p.1.canonical

-- scratch sanity checks (to be removed)
lemma parseLoopAux_append (pre : List KindSpec) :
    ∀ (idx : ℕ) (rest : List KindSpec) (line : Chars),
    (∀ sp' ∈ pre, (keyOf sp').isPrefixOf line = false) →
    parseLoopAux idx (pre ++ rest) line false =
      parseLoopAux (idx + pre.length) rest line false := by
  induction pre with
  | nil => intro idx rest line h; simp
  | cons sp pre ih =>
    intro idx rest line h
    rw [List.cons_append]
    show (if (keyOf sp).isPrefixOf (line) = true then
        kindParse idx sp (line.drop (keyOf sp).length)
      else if false = true then .ok ⟨0, [.pstr line]⟩
      else parseLoopAux (idx + 1) (pre ++ rest) line false) = _
    rw [h sp (List.mem_cons_self sp pre)]
    simp only [Bool.false_eq_true, if_false]
    rw [ih (idx + 1) rest line (fun sp' h' => h sp' (List.mem_cons_of_mem _ h'))]
    have harith : idx + 1 + pre.length = idx + (sp :: pre).length := by
      simp [List.length_cons]
      omega
    rw [harith]

lemma not_prefix_append_space (key cls tail : Chars)
    (hsp : ∀ c ∈ key, c ≠ ' ') (hnp : ¬ key <+: cls) :
    key.isPrefixOf (cls ++ ' ' :: tail) = false := by
  have hprop : ¬ key <+: (cls ++ ' ' :: tail) := by
    intro hpre
    by_cases hlen : key.length ≤ cls.length
    · have heq := List.prefix_iff_eq_take.1 hpre
      rw [List.take_append_eq_append_take] at heq
      rw [Nat.sub_eq_zero_of_le hlen] at heq
      simp only [List.take_zero, List.append_nil] at heq
      exact hnp (heq ▸ List.take_prefix _ _)
    · push_neg at hlen
      have heq := List.prefix_iff_eq_take.1 hpre
      rw [List.take_append_eq_append_take] at heq
      rw [List.take_of_length_le (le_of_lt hlen)] at heq
      obtain ⟨j, hj⟩ : ∃ j, key.length - cls.length = j + 1 := by
        refine ⟨key.length - cls.length - 1, ?_⟩
        omega
      rw [hj] at heq
      have hmem : ' ' ∈ key := by
        rw [heq]
        refine List.mem_append_right _ ?_
        rw [List.take_cons (Nat.succ_pos j)]
        exact List.mem_cons_self _ _
      exact hsp ' ' hmem rfl
  refine Bool.eq_false_iff.2 fun htrue => hprop (List.isPrefixOf_iff_prefix.1 htrue)

lemma parseLoopAux_cons_true (idx : ℕ) (sp : KindSpec) (rest : List KindSpec)
    (line : Chars) :
    parseLoopAux idx (sp :: rest) line true =
      if (keyOf sp).isPrefixOf line then
        kindParse idx sp (line.drop (keyOf sp).length)
      else Except.ok ⟨0, [.pstr line]⟩ := by
  show (if (keyOf sp).isPrefixOf line = true then
      kindParse idx sp (line.drop (keyOf sp).length)
    else if true = true then Except.ok ⟨0, [.pstr line]⟩
    else parseLoopAux (idx + 1) rest line true) = _
  by_cases h : (keyOf sp).isPrefixOf line = true
  · rw [if_pos h, if_pos h]
  · rw [if_neg h, if_neg h, if_pos rfl]

/-- The value `parse_describe_line` returns when unknown lines are accepted:
only the first registry key is ever tested. -/
def parseTrueTotal (line : Chars) : DescribeCommandInst :=
  if ("UnknownDescribeCommand".toList).isPrefixOf line then
    ⟨0, [.pstr (line.drop 22)]⟩
  else ⟨0, [.pstr line]⟩

lemma parse_describe_line_true (line : Chars) :
    parse_describe_line line true = Except.ok (parseTrueTotal line) := by
  have hstep : parse_describe_line line true =
      if (("UnknownDescribeCommand".toList : Chars)).isPrefixOf line then
        kindParse 0 ⟨"UnknownDescribeCommand".toList, [("strcmd".toList, .tStr)],
          .verbatim, .default⟩ (line.drop ("UnknownDescribeCommand".toList : Chars).length)
      else Except.ok ⟨0, [.pstr line]⟩ := by
    unfold parse_describe_line available_describe_commands
    rw [parseLoopAux_cons_true]
    rfl
  rw [hstep]
  unfold parseTrueTotal
  by_cases h : (("UnknownDescribeCommand".toList : Chars)).isPrefixOf line = true
  · rw [if_pos h, if_pos h]
    rfl
  · rw [if_neg h, if_neg h]

lemma mapM_parse_true (L : List Chars) :
    (L.mapM fun l => parse_describe_line l true) =
      Except.ok (L.map parseTrueTotal) := by
  induction L with
  | nil => rfl
  | cons l ls ih =>
    rw [List.mapM_cons, parse_describe_line_true, ih]
    rfl

lemma readLinesLoop_eq (accept : Bool) (ls : List Chars) :
    ∀ acc, readLinesLoop accept acc ls =
      ((((ls.map stripChars).filter fun l => !l.isEmpty).mapM
        fun l => parse_describe_line l accept).map fun cs => acc ++ cs) := by
  induction ls with
  | nil =>
    intro acc
    show Except.ok acc = Except.ok (acc ++ [])
    rw [List.append_nil]
  | cons l ls ih =>
    intro acc
    show (if (stripChars l).isEmpty = true then readLinesLoop accept acc ls
      else match parse_describe_line (stripChars l) accept with
        | Except.error e => Except.error e
        | Except.ok cmd => readLinesLoop accept (acc ++ [cmd]) ls) = _
    by_cases hb : (stripChars l).isEmpty = true
    · rw [if_pos hb, ih acc]
      simp only [List.map_cons, List.filter_cons, hb]
      rfl
    · rw [if_neg hb]
      have hbt : (!(stripChars l).isEmpty) = true := by
        rw [Bool.not_eq_true']; exact Bool.eq_false_iff.2 hb
      rw [List.map_cons, List.filter_cons, hbt, if_pos rfl, List.mapM_cons]
      cases hp : parse_describe_line (stripChars l) accept with
      | error e => rfl
      | ok cmd =>
        show readLinesLoop accept (acc ++ [cmd]) ls = _
        rw [ih (acc ++ [cmd])]
        cases hrest : ((ls.map stripChars).filter fun l2 => !l2.isEmpty).mapM
            (fun l2 => parse_describe_line l2 accept) with
        | error e => rfl
        | ok cs =>
          show Except.ok (acc ++ [cmd] ++ cs) = Except.ok (acc ++ cmd :: cs)
          rw [List.append_assoc]
          rfl

set_option maxRecDepth 8000 in
lemma strip_header_nonempty :
    ¬ stripChars (renderCmd headerCmd) = [] := by decide

set_option maxRecDepth 8000 in
lemma header_fixpoint :
    renderCmd (parseTrueTotal (stripChars (renderCmd headerCmd))) =
      renderCmd headerCmd := by decide

lemma never_verbatim_chain (pre : List Chars) :
    ∀ (rest : List Chars) (bl : Chars) (post : List Chars),
      stripChars bl = [] →
      (∀ x ∈ pre, ¬ stripChars x = []) →
      ¬ (renderCmd headerCmd ::
          ((pre.map fun x => renderCmd (parseTrueTotal (stripChars x))) ++ rest)
         = pre ++ bl :: post) := by
  induction pre with
  | nil =>
    intro rest bl post hbl _ heq
    rw [List.map_nil, List.nil_append, List.nil_append, List.cons_eq_cons] at heq
    rw [← heq.1] at hbl
    exact strip_header_nonempty hbl
  | cons a pre ih =>
    intro rest bl post hbl hnb heq
    rw [List.map_cons, List.cons_append, List.cons_append, List.cons_eq_cons] at heq
    obtain ⟨h0, h1⟩ := heq
    rw [← h0, header_fixpoint] at h1
    exact ih rest bl post hbl (fun x hx => hnb x (List.mem_cons_of_mem a hx)) h1

lemma firstBlankSplit (lines : List Chars) :
    (∃ bl ∈ lines, stripChars bl = []) →
    ∃ pre bl post, lines = pre ++ bl :: post ∧ stripChars bl = [] ∧
      ∀ x ∈ pre, ¬ stripChars x = [] := by
  induction lines with
  | nil =>
    rintro ⟨bl, hm, -⟩
    exact absurd hm (List.not_mem_nil bl)
  | cons a ls ih =>
    rintro ⟨bl, hm, hbl⟩
    by_cases ha : stripChars a = []
    · exact ⟨[], a, ls, rfl, ha, fun x hx => absurd hx (List.not_mem_nil x)⟩
    · have hex : ∃ b ∈ ls, stripChars b = [] := by
        rcases List.mem_cons.1 hm with rfl | h
        · exact absurd hbl ha
        · exact ⟨bl, h, hbl⟩
      obtain ⟨pre, b, post, hsplit, hb, hpre⟩ := ih hex
      refine ⟨a :: pre, b, post, by rw [hsplit]; rfl, hb, fun x hx => ?_⟩
      rcases List.mem_cons.1 hx with rfl | h2
      · exact ha
      · exact hpre x h2

deriving instance DecidableEq for Except


-- ===== Part E: recipe memoization model (describe_gds_handler.process_cell) =====

/-- State of `NanoscribeGdsHandler` relevant to recipe memoization:
`recipes` holds, in append order, each distinct processed recipe value
paired with the job-fragment include file produced for it by
`generate_gwl_code`; `invocations` logs each call to the external slicer
by the recipe value it was invoked on. Recipe values are compared by
value equality (`DescribeRecipe.__eq__` compares the recipe dicts). -/
structure SlicerState (R F : Type) where
  recipes : List (R × F)
  invocations : List R
deriving Repr

/-- `NanoscribeGdsHandler.process_cell`: compute the recipe for the
association (`process_stl`), look it up by value in `self.recipes`
(Python `in` / `.index`, i.e. first value-equal element); on a miss,
append it, invoke the slicer once producing a file named from
`len(self.recipes)` after the append, and assign that file; on a hit,
assign the file stored with the first equal recipe. Returns the new
state and the include file assigned to the association. -/
def process_cell {R A F : Type} [DecidableEq R] (recipeOf : A → R)
    (mkFile : ℕ → A → F) (st : SlicerState R F) (a : A) :
    SlicerState R F × F :=
  match st.recipes.find? fun p => decide (p.1 = recipeOf a) with
  | some p => (st, p.2)
  | none =>
    let f := mkFile (st.recipes.length + 1) a
    (⟨st.recipes ++ [(recipeOf a, f)], st.invocations ++ [recipeOf a]⟩, f)

/-- `NanoscribeGdsHandler.process_all_cells`: fold `process_cell` over the
associations in order, recording the include file assigned to each. -/
def process_all_cells {R A F : Type} [DecidableEq R] (recipeOf : A → R)
    (mkFile : ℕ → A → F) : SlicerState R F → List A → SlicerState R F × List (A × F)
  | st, [] => (st, [])
  | st, a :: as =>
    let pf := process_cell recipeOf mkFile st a
    let rest := process_all_cells recipeOf mkFile pf.1 as
    (rest.1, (a, pf.2) :: rest.2)

lemma run_invariant {R A F : Type} [DecidableEq R] (recipeOf : A → R)
    (mkFile : ℕ → A → F) :
    ∀ (as : List A) (st : SlicerState R F),
      st.invocations = st.recipes.map Prod.fst →
      (st.recipes.map Prod.fst).Nodup →
      (process_all_cells recipeOf mkFile st as).1.invocations =
        (process_all_cells recipeOf mkFile st as).1.recipes.map Prod.fst ∧
      ((process_all_cells recipeOf mkFile st as).1.recipes.map Prod.fst).Nodup ∧
      (∀ p ∈ st.recipes, p ∈ (process_all_cells recipeOf mkFile st as).1.recipes) ∧
      (∀ r, r ∈ (process_all_cells recipeOf mkFile st as).1.recipes.map Prod.fst ↔
        r ∈ st.recipes.map Prod.fst ∨ r ∈ as.map recipeOf) ∧
      (∀ q ∈ (process_all_cells recipeOf mkFile st as).2,
        (recipeOf q.1, q.2) ∈ (process_all_cells recipeOf mkFile st as).1.recipes) := by
  intro as
  induction as with
  | nil =>
    intro st hinv hnd
    refine ⟨hinv, hnd, fun p hp => hp, fun r => ?_, fun q hq => absurd hq (List.not_mem_nil q)⟩
    exact ⟨Or.inl, fun h => h.elim id fun hc => absurd hc (List.not_mem_nil r)⟩
  | cons a as ih =>
    intro st hinv hnd
    cases hf : st.recipes.find? (fun p => decide (p.1 = recipeOf a)) with
    | some p =>
      have hstep : process_cell recipeOf mkFile st a = (st, p.2) := by
        unfold process_cell; rw [hf]
      have hrun : process_all_cells recipeOf mkFile st (a :: as) =
          ((process_all_cells recipeOf mkFile st as).1,
           (a, p.2) :: (process_all_cells recipeOf mkFile st as).2) := by
        show ((process_all_cells recipeOf mkFile
            (process_cell recipeOf mkFile st a).1 as).1,
          (a, (process_cell recipeOf mkFile st a).2) ::
            (process_all_cells recipeOf mkFile
              (process_cell recipeOf mkFile st a).1 as).2) = _
        rw [hstep]
      have hp1 : p.1 = recipeOf a := by
        have hps := List.find?_some hf
        exact of_decide_eq_true hps
      have hpm : p ∈ st.recipes := List.mem_of_find?_eq_some hf
      obtain ⟨h1, h2, h3, h4, h5⟩ := ih st hinv hnd
      rw [hrun]
      refine ⟨h1, h2, h3, fun r => ?_, fun q hq => ?_⟩
      · rw [h4 r]
        constructor
        · rintro (hl | hr)
          · exact Or.inl hl
          · exact Or.inr (by rw [List.map_cons]; exact List.mem_cons_of_mem _ hr)
        · rintro (hl | hr)
          · exact Or.inl hl
          · rw [List.map_cons] at hr
            rcases List.mem_cons.1 hr with rfl | hr2
            · exact Or.inl (by rw [← hp1]; exact List.mem_map.2 ⟨p, hpm, rfl⟩)
            · exact Or.inr hr2
      · rcases List.mem_cons.1 hq with rfl | hq2
        · have : (recipeOf a, p.2) ∈ st.recipes := by
            rw [← hp1, Prod.mk.eta]; exact hpm
          exact h3 _ this
        · exact h5 q hq2
    | none =>
      have hka : recipeOf a ∉ st.recipes.map Prod.fst := by
        intro hk
        obtain ⟨q, hq, hq1⟩ := List.mem_map.1 hk
        exact (List.find?_eq_none.1 hf q hq) (decide_eq_true hq1)
      have hstep : process_cell recipeOf mkFile st a =
          (⟨st.recipes ++ [(recipeOf a, mkFile (st.recipes.length + 1) a)],
            st.invocations ++ [recipeOf a]⟩,
           mkFile (st.recipes.length + 1) a) := by
        unfold process_cell; rw [hf]
      have hinv' : (SlicerState.mk
          (st.recipes ++ [(recipeOf a, mkFile (st.recipes.length + 1) a)])
          (st.invocations ++ [recipeOf a])).invocations =
          (SlicerState.mk
            (st.recipes ++ [(recipeOf a, mkFile (st.recipes.length + 1) a)])
            (st.invocations ++ [recipeOf a])).recipes.map Prod.fst := by
        show st.invocations ++ [recipeOf a] = _
        rw [List.map_append, hinv]
        rfl
      have hnd' : ((SlicerState.mk
          (st.recipes ++ [(recipeOf a, mkFile (st.recipes.length + 1) a)])
          (st.invocations ++ [recipeOf a])).recipes.map Prod.fst).Nodup := by
        show ((st.recipes ++ _).map Prod.fst).Nodup
        rw [List.map_append]
        refine List.Nodup.append hnd (List.nodup_singleton _) ?_
        intro x hx hx2
        simp only [List.map_cons, List.map_nil, List.mem_singleton] at hx2
        rw [hx2] at hx
        exact hka hx
      obtain ⟨h1, h2, h3, h4, h5⟩ := ih
        ⟨st.recipes ++ [(recipeOf a, mkFile (st.recipes.length + 1) a)],
          st.invocations ++ [recipeOf a]⟩ hinv' hnd'
      have hrun : process_all_cells recipeOf mkFile st (a :: as) =
          ((process_all_cells recipeOf mkFile
            ⟨st.recipes ++ [(recipeOf a, mkFile (st.recipes.length + 1) a)],
              st.invocations ++ [recipeOf a]⟩ as).1,
           (a, mkFile (st.recipes.length + 1) a) ::
            (process_all_cells recipeOf mkFile
              ⟨st.recipes ++ [(recipeOf a, mkFile (st.recipes.length + 1) a)],
                st.invocations ++ [recipeOf a]⟩ as).2) := by
        show ((process_all_cells recipeOf mkFile
            (process_cell recipeOf mkFile st a).1 as).1,
          (a, (process_cell recipeOf mkFile st a).2) ::
            (process_all_cells recipeOf mkFile
              (process_cell recipeOf mkFile st a).1 as).2) = _
        rw [hstep]
      rw [hrun]
      refine ⟨h1, h2, fun p hp => h3 p (List.mem_append_left _ hp),
        fun r => ?_, fun q hq => ?_⟩
      · rw [h4 r]
        simp only [List.map_append, List.mem_append, List.map_cons, List.map_nil,
          List.mem_singleton, List.mem_cons]
        tauto
      · rcases List.mem_cons.1 hq with rfl | hq2
        · exact h3 _ (List.mem_append_right _ (List.mem_singleton.2 rfl))
        · exact h5 q hq2

lemma keys_nodup_unique {R F : Type} {l : List (R × F)}
    (h : (l.map Prod.fst).Nodup) :
    ∀ {r : R} {f1 f2 : F}, (r, f1) ∈ l → (r, f2) ∈ l → f1 = f2 := by
  induction l with
  | nil =>
    intro r f1 f2 h1 _
    exact absurd h1 (List.not_mem_nil _)
  | cons p l ih =>
    intro r f1 f2 h1 h2
    rw [List.map_cons] at h
    have hnd := List.nodup_cons.1 h
    rcases List.mem_cons.1 h1 with e1 | m1 <;> rcases List.mem_cons.1 h2 with e2 | m2
    · exact (Prod.ext_iff.1 (e2.trans e1.symm)).2.symm
    · exfalso
      apply hnd.1
      rw [← e1]
      exact List.mem_map.2 ⟨(r, f2), m2, rfl⟩
    · exfalso
      apply hnd.1
      rw [← e2]
      exact List.mem_map.2 ⟨(r, f1), m1, rfl⟩
    · exact ih hnd.2 m1 m2


-- ===== THEOREMS: Part A =====

namespace CellTransformation

lemma linear_part_eq (t : CellTransformation) :
    t.get_magnification_matrix * (t.get_rotation_matrix * t.get_xreflection_matrix) =
    !![t.magnification * Real.cos t.rotation * t.reflSign,
         -(t.magnification * Real.sin t.rotation), 0;
       t.magnification * Real.sin t.rotation * t.reflSign,
         t.magnification * Real.cos t.rotation, 0;
       0, 0, t.magnification] := by
  ext i j
  fin_cases i <;> fin_cases j <;>
    simp [get_magnification_matrix, get_rotation_matrix, get_xreflection_matrix,
      Matrix.mul_apply, Fin.sum_univ_three, reflSign]

lemma gtm_row0 (t : CellTransformation) :
    t.get_transformation_matrix false 0 0 =
        t.magnification * Real.cos t.rotation * t.reflSign ∧
    t.get_transformation_matrix false 0 1 =
        -(t.magnification * Real.sin t.rotation) ∧
    t.get_transformation_matrix false 0 2 = 0 ∧
    t.get_transformation_matrix false 0 3 = 0 := by
  refine ⟨?_, ?_, ?_, ?_⟩ <;>
    simp [get_transformation_matrix, linear_part_eq] <;>
    (intro h; exact absurd h (by decide))

lemma gtm_row1 (t : CellTransformation) :
    t.get_transformation_matrix false 1 0 =
        t.magnification * Real.sin t.rotation * t.reflSign ∧
    t.get_transformation_matrix false 1 1 =
        t.magnification * Real.cos t.rotation ∧
    t.get_transformation_matrix false 1 2 = 0 ∧
    t.get_transformation_matrix false 1 3 = 0 := by
  refine ⟨?_, ?_, ?_, ?_⟩ <;>
    simp [get_transformation_matrix, linear_part_eq] <;>
    (intro h; exact absurd h (by decide))

/-- Closed form of `compose_transformations`, obtained by evaluating the
4x4 matrix-vector product of the source. -/
lemma compose_closed_form (a b : CellTransformation) :
    a.compose_transformations b =
    { magnification := a.magnification * b.magnification
      origin := (a.origin.1 + a.magnification *
                   (Real.cos a.rotation * a.reflSign * b.origin.1 -
                    Real.sin a.rotation * b.origin.2),
                 a.origin.2 + a.magnification *
                   (Real.sin a.rotation * a.reflSign * b.origin.1 +
                    Real.cos a.rotation * b.origin.2))
      x_reflection := xor a.x_reflection b.x_reflection
      rotation := a.rotation + b.rotation } := by
  obtain ⟨h00, h01, h02, h03⟩ := gtm_row0 a
  obtain ⟨h10, h11, h12, h13⟩ := gtm_row1 a
  unfold compose_transformations
  ext : 1
  · rfl
  · show (a.origin.1 + _, a.origin.2 + _) = _
    have e0 : (a.get_transformation_matrix).mulVec ![b.origin.1, b.origin.2, 0, 0] 0 =
        a.magnification * (Real.cos a.rotation * a.reflSign * b.origin.1 -
          Real.sin a.rotation * b.origin.2) := by
      simp [Matrix.mulVec, Matrix.dotProduct, Fin.sum_univ_four, h00, h01, h02, h03]
      ring
    have e1 : (a.get_transformation_matrix).mulVec ![b.origin.1, b.origin.2, 0, 0] 1 =
        a.magnification * (Real.sin a.rotation * a.reflSign * b.origin.1 +
          Real.cos a.rotation * b.origin.2) := by
      simp [Matrix.mulVec, Matrix.dotProduct, Fin.sum_univ_four, h10, h11, h12, h13]
      ring
    rw [e0, e1]
  · rfl
  · rfl

end CellTransformation

/-- C1 (counterexample): `compose_transformations` is not associative.  With
`A` mirrored, `B` rotated by pi/2 and `C` translated by `(1,0)`, the two
nestings place the origin at `(0,-1)` resp. `(0,1)`. -/
theorem C1_compose_not_associative_counterexample :
    ¬ (CellTransformation.compose_transformations
         (CellTransformation.compose_transformations
           ⟨1, (0, 0), true, 0⟩ ⟨1, (0, 0), false, Real.pi / 2⟩)
         ⟨1, (1, 0), false, 0⟩ =
       CellTransformation.compose_transformations ⟨1, (0, 0), true, 0⟩
         (CellTransformation.compose_transformations
           ⟨1, (0, 0), false, Real.pi / 2⟩ ⟨1, (1, 0), false, 0⟩)) := by
  intro h
  have h2 := congrArg (fun t : CellTransformation => t.origin.2) h
  simp [CellTransformation.compose_closed_form, CellTransformation.reflSign,
    Real.cos_pi_div_two, Real.sin_pi_div_two] at h2
  norm_num at h2

/-- C1 (amended): composition of transformations is associative in the
magnification, rotation and x-reflection components for all transforms, and
it is associative in every component (in particular the origin) whenever the
outermost transform carries no x-mirror. -/
theorem C1_compose_associativity_amended (A B C : CellTransformation) :
    ((CellTransformation.compose_transformations
        (CellTransformation.compose_transformations A B) C).magnification =
      (CellTransformation.compose_transformations A
        (CellTransformation.compose_transformations B C)).magnification ∧
     (CellTransformation.compose_transformations
        (CellTransformation.compose_transformations A B) C).rotation =
      (CellTransformation.compose_transformations A
        (CellTransformation.compose_transformations B C)).rotation ∧
     (CellTransformation.compose_transformations
        (CellTransformation.compose_transformations A B) C).x_reflection =
      (CellTransformation.compose_transformations A
        (CellTransformation.compose_transformations B C)).x_reflection) ∧
    (A.x_reflection = false →
      CellTransformation.compose_transformations
        (CellTransformation.compose_transformations A B) C =
      CellTransformation.compose_transformations A
        (CellTransformation.compose_transformations B C)) := by
  constructor
  · refine ⟨?_, ?_, ?_⟩ <;>
      simp [CellTransformation.compose_closed_form, mul_assoc, add_assoc, Bool.xor_assoc]
  · intro hA
    ext : 1
    · simp [CellTransformation.compose_closed_form, mul_assoc]
    · simp only [CellTransformation.compose_closed_form, CellTransformation.reflSign, hA,
        Bool.false_xor, if_false, Bool.false_eq_true]
      rw [Prod.mk.injEq]
      constructor
      · rw [Real.cos_add, Real.sin_add]; ring
      · rw [Real.cos_add, Real.sin_add]; ring
    · simp [CellTransformation.compose_closed_form, Bool.xor_assoc]
    · simp [CellTransformation.compose_closed_form, add_assoc]

/-- C1 witness: the amended associativity applied to concrete unmirrored-outer
transforms. -/
theorem C1_compose_associativity_amended_witness :
    CellTransformation.compose_transformations
      (CellTransformation.compose_transformations
        ⟨2, (3, 4), false, 1⟩ ⟨5, (6, 7), true, 2⟩) ⟨9, (8, 1), true, 3⟩ =
    CellTransformation.compose_transformations ⟨2, (3, 4), false, 1⟩
      (CellTransformation.compose_transformations
        ⟨5, (6, 7), true, 2⟩ ⟨9, (8, 1), true, 3⟩) :=
  (C1_compose_associativity_amended ⟨2, (3, 4), false, 1⟩ ⟨5, (6, 7), true, 2⟩
    ⟨9, (8, 1), true, 3⟩).2 rfl

/-- C2: `compose_transformations outer inner` multiplies magnifications, adds
rotations, xors the mirror flags, and maps the inner origin through the outer
3x3 linear matrix `scale @ (rotation @ mirror)` before translating by the
outer origin. -/
theorem C2_compose_components (outer inner : CellTransformation) :
    (outer.compose_transformations inner).magnification =
        outer.magnification * inner.magnification ∧
    (outer.compose_transformations inner).rotation =
        outer.rotation + inner.rotation ∧
    (outer.compose_transformations inner).x_reflection =
        xor outer.x_reflection inner.x_reflection ∧
    (outer.compose_transformations inner).origin =
      (outer.origin.1 +
        ((outer.get_magnification_matrix *
          (outer.get_rotation_matrix * outer.get_xreflection_matrix)).mulVec
            ![inner.origin.1, inner.origin.2, 0]) 0,
       outer.origin.2 +
        ((outer.get_magnification_matrix *
          (outer.get_rotation_matrix * outer.get_xreflection_matrix)).mulVec
            ![inner.origin.1, inner.origin.2, 0]) 1) := by
  refine ⟨?_, ?_, ?_, ?_⟩
  · simp [CellTransformation.compose_closed_form]
  · simp [CellTransformation.compose_closed_form]
  · simp [CellTransformation.compose_closed_form]
  · rw [CellTransformation.compose_closed_form, CellTransformation.linear_part_eq]
    simp [Matrix.mulVec, Matrix.dotProduct, Fin.sum_univ_three]
    constructor <;> ring


-- ===== THEOREMS: Part B =====

lemma resolve_nil : resolve [] = [] := by simp [resolve]

lemma resolve_cons_target (c : GdsCell) (t : CellTransformation)
    (rest : List (GdsCell × CellTransformation)) (h : c.isNanoscribe = true) :
    resolve ((c, t) :: rest) = ⟨c, t⟩ :: resolve rest := by
  rw [resolve]
  simp [h]

lemma resolve_cons_container (c : GdsCell) (t : CellTransformation)
    (rest : List (GdsCell × CellTransformation)) (h : c.isNanoscribe = false) :
    resolve ((c, t) :: rest) =
      resolve (rest ++ (expandReferences c.references).map
        fun r => (r.cell, t.compose_transformations r.toTransformation)) := by
  rw [resolve]
  simp [h]

lemma mem_expandReferences_cell {refs : List (GdsRefF GdsCell)} {r : GdsRefF GdsCell}
    (h : r ∈ expandReferences refs) : ∃ r' ∈ refs, r.cell = r'.cell := by
  rcases List.mem_append.1 h with h1 | h2
  · exact ⟨r, h1, rfl⟩
  · rcases List.mem_flatMap.1 h2 with ⟨r', hr', hmem⟩
    rcases List.mem_map.1 hmem with ⟨o, _, rfl⟩
    exact ⟨r', hr', rfl⟩

/-- The traversal emits nothing exactly when no queued cell reaches a
nanoscribe target. -/
lemma resolve_eq_nil_iff (q : List (GdsCell × CellTransformation)) :
    resolve q = [] ↔ ∀ p ∈ q, ¬ HasNanoscribe p.1 := by
  induction q using resolve.induct with
  | case1 => simp [resolve_nil]
  | case2 c t rest h ih =>
    rw [resolve_cons_target c t rest h]
    simp only [List.mem_cons]
    constructor
    · intro hfalse
      exact absurd hfalse (by simp)
    · intro hall
      exact absurd (HasNanoscribe.here c h) (hall (c, t) (Or.inl rfl))
  | case3 c t rest h ih =>
    rw [resolve_cons_container c t rest (by simpa using h)]
    rw [ih]
    constructor
    · intro hall p hp
      rcases List.mem_cons.1 hp with rfl | hp
      · intro hc
        cases hc with
        | here _ hisns => rw [hisns] at h; simp at h
        | via _ r hr hcell =>
          refine hall (r.cell, t.compose_transformations r.toTransformation) ?_ hcell
          refine List.mem_append.2 (Or.inr ?_)
          exact List.mem_map.2 ⟨r, List.mem_append.2 (Or.inl hr), rfl⟩
      · exact hall p (List.mem_append.2 (Or.inl hp))
    · intro hall p hp
      rcases List.mem_append.1 hp with hp | hp
      · exact hall p (List.mem_cons.2 (Or.inr hp))
      · rcases List.mem_map.1 hp with ⟨r, hr, rfl⟩
        rcases mem_expandReferences_cell hr with ⟨r', hr', hcelleq⟩
        simp only [hcelleq]
        intro hcontra
        exact hall (c, t) (List.mem_cons.2 (Or.inl rfl)) (HasNanoscribe.via c r' hr' hcontra)

/-- C3: the resolver is the FIFO breadth-first traversal: the empty queue
yields nothing; a dequeued nanoscribe cell emits exactly one association
carrying the accumulated transform and its children are not enqueued; a
dequeued container enqueues, at the back of the queue, every reference and
every expanded repetition instance paired with the composition of the
accumulated transform with the reference transform; and a successful run
stores the output of this traversal started from the top cell with the
identity transform, so the emitted order is the dequeue order and identical
runs give identical lists. -/
theorem C3_resolver_bfs :
    (resolve [] = []) ∧
    (∀ (c : GdsCell) (t : CellTransformation) rest, c.isNanoscribe = true →
      resolve ((c, t) :: rest) = ⟨c, t⟩ :: resolve rest) ∧
    (∀ (c : GdsCell) (t : CellTransformation) rest, c.isNanoscribe = false →
      resolve ((c, t) :: rest) =
        resolve (rest ++ (expandReferences c.references).map
          fun r => (r.cell, t.compose_transformations r.toTransformation))) ∧
    (∀ hs h', find_nanoscribe_instances_and_transformations hs = .ok h' →
      h'.nanoscribe_cells_associations = resolve [(hs.topcell, {})]) := by
  refine ⟨resolve_nil, resolve_cons_target, resolve_cons_container, ?_⟩
  intro hs h' hok
  unfold find_nanoscribe_instances_and_transformations at hok
  by_cases he : (resolve [(hs.topcell, {})]).isEmpty
  · simp [he] at hok
  · simp [he] at hok
    rw [← hok]

/-- C3 witness: a single nanoscribe top cell is emitted with its accumulated
transform. -/
theorem C3_resolver_bfs_witness :
    resolve [(GdsCell.mk true [], ⟨1, (0, 0), false, 0⟩)] =
      ⟨GdsCell.mk true [], ⟨1, (0, 0), false, 0⟩⟩ :: resolve [] :=
  C3_resolver_bfs.2.1 (GdsCell.mk true []) ⟨1, (0, 0), false, 0⟩ [] rfl

/-- C8: when no reachable cell is a nanoscribe target the resolver raises
(leaving the handler untouched), and it succeeds with a non-empty stored
association list exactly when some reachable target exists. -/
theorem C8_resolver_no_targets (hs : GdsHandlerState) :
    (¬ HasNanoscribe hs.topcell →
      find_nanoscribe_instances_and_transformations hs =
        Except.error "No nanoscribe print areas found in library") ∧
    ((∃ h', find_nanoscribe_instances_and_transformations hs = Except.ok h' ∧
        h'.nanoscribe_cells_associations ≠ []) ↔ HasNanoscribe hs.topcell) := by
  have hchar : resolve [(hs.topcell, ({} : CellTransformation))] = [] ↔
      ¬ HasNanoscribe hs.topcell := by
    rw [resolve_eq_nil_iff]
    constructor
    · intro hall
      exact hall (hs.topcell, {}) (List.mem_singleton.2 rfl)
    · intro hnot p hp
      rw [List.mem_singleton.1 hp]
      exact hnot
  constructor
  · intro hnot
    unfold find_nanoscribe_instances_and_transformations
    rw [if_pos (by rw [List.isEmpty_iff]; exact hchar.2 hnot)]
  · constructor
    · rintro ⟨h', hok, hne⟩
      by_contra hnot
      unfold find_nanoscribe_instances_and_transformations at hok
      rw [if_pos (by rw [List.isEmpty_iff]; exact hchar.2 hnot)] at hok
      exact Except.noConfusion hok
    · intro hhas
      have hne : resolve [(hs.topcell, ({} : CellTransformation))] ≠ [] := by
        intro hnil
        exact (hchar.1 hnil) hhas
      refine ⟨⟨hs.topcell, resolve [(hs.topcell, {})]⟩, ?_, hne⟩
      unfold find_nanoscribe_instances_and_transformations
      rw [if_neg (by rw [List.isEmpty_iff]; exact hne)]

/-- C8 witness: a hierarchy whose top cell is itself a target succeeds with a
non-empty association list. -/
theorem C8_resolver_no_targets_witness :
    ∃ h', find_nanoscribe_instances_and_transformations
        ⟨GdsCell.mk true [], []⟩ = Except.ok h' ∧
      h'.nanoscribe_cells_associations ≠ [] :=
  (C8_resolver_no_targets ⟨GdsCell.mk true [], []⟩).2.mpr
    (HasNanoscribe.here _ rfl)


-- ===== THEOREMS: Part D =====

lemma movesX_printLoop (outDir : String) (assos : List JobAssociation) :
    ∀ (cur : ℝ × ℝ) (g : List GwlCmd) (k : ℕ),
    movesX (printLoop outDir cur g k assos) =
      movesX g ++ (assos.map fun a => a.origin.1).zipWith
        (fun target prev => target - prev) (cur.1 :: assos.map fun a => a.origin.1) := by
  induction assos with
  | nil => intro cur g k; simp [printLoop]
  | cons a rest ih =>
    intro cur g k
    rw [printLoop, ih]
    simp [movesX, List.filterMap_append]

lemma movesY_printLoop (outDir : String) (assos : List JobAssociation) :
    ∀ (cur : ℝ × ℝ) (g : List GwlCmd) (k : ℕ),
    movesY (printLoop outDir cur g k assos) =
      movesY g ++ (assos.map fun a => a.origin.2).zipWith
        (fun target prev => target - prev) (cur.2 :: assos.map fun a => a.origin.2) := by
  induction assos with
  | nil => intro cur g k; simp [printLoop]
  | cons a rest ih =>
    intro cur g k
    rw [printLoop, ih]
    simp [movesY, List.filterMap_append]

theorem C6_job_moves (h : JobHandlerState) (o : ℝ × ℝ)
    (hfresh : h.gwl_commands = [])
    (horigin : h.print_origin = some o)
    (hscan : h.describerecipe.scanMode = "Galvo" ∨ h.describerecipe.scanMode = "Piezo") :
    ∃ doc, create_print_job h = Except.ok doc ∧
      movesX doc = (h.nanoscribe_cells_associations.map fun a => a.origin.1).zipWith
        (fun target prev => target - prev)
        (o.1 :: h.nanoscribe_cells_associations.map fun a => a.origin.1) ∧
      movesY doc = (h.nanoscribe_cells_associations.map fun a => a.origin.2).zipWith
        (fun target prev => target - prev)
        (o.2 :: h.nanoscribe_cells_associations.map fun a => a.origin.2) := by
  have hawc : ∃ gc, add_writing_configuration h.describerecipe
      (add_system_initialisation h.describerecipe (add_header h.gwl_commands) ++
        [GwlCmd.describeEmpty]) = Except.ok gc ∧
      movesX gc = [] ∧ movesY gc = [] := by
    unfold add_writing_configuration
    rcases hscan with hscan | hscan
    · rw [if_pos hscan]
      refine ⟨_, rfl, ?_, ?_⟩ <;>
        simp [movesX, movesY, add_system_initialisation, add_header,
          List.filterMap_append, hfresh]
    · have hne : ¬ h.describerecipe.scanMode = "Galvo" := by rw [hscan]; decide
      rw [if_neg hne, if_pos hscan]
      refine ⟨_, rfl, ?_, ?_⟩ <;>
        simp [movesX, movesY, add_system_initialisation, add_header,
          List.filterMap_append, hfresh]
  obtain ⟨gc, hok, hmx, hmy⟩ := hawc
  unfold create_print_job
  simp only [hok, horigin]
  refine ⟨_, rfl, ?_, ?_⟩
  · rw [movesX_printLoop]
    simp [movesX, add_writing_parameters, List.filterMap_append]
    exact List.filterMap_eq_nil_iff.mp hmx
  · rw [movesY_printLoop]
    simp [movesY, add_writing_parameters, List.filterMap_append]
    exact List.filterMap_eq_nil_iff.mp hmy

theorem C6_job_moves_witness :
    ∃ doc, create_print_job ⟨[], ⟨"Galvo", true, 1, 36, 20000, 40, 20000, 0.5⟩,
        some (0, 0), "out", [⟨"A", (0, 0), "a.gwl"⟩, ⟨"B", (10, 5), "b.gwl"⟩]⟩ =
        Except.ok doc ∧
      movesX doc = [0, 10] ∧ movesY doc = [0, 5] := by
  obtain ⟨doc, h1, h2, h3⟩ :=
    C6_job_moves ⟨[], ⟨"Galvo", true, 1, 36, 20000, 40, 20000, 0.5⟩,
      some (0, 0), "out", [⟨"A", (0, 0), "a.gwl"⟩, ⟨"B", (10, 5), "b.gwl"⟩]⟩
      (0, 0) rfl rfl (Or.inl rfl)
  refine ⟨doc, h1, ?_, ?_⟩
  · rw [h2]; norm_num
  · rw [h3]; norm_num

theorem C7_scanmode_error_amended (h : JobHandlerState)
    (h1 : h.describerecipe.scanMode ≠ "Galvo")
    (h2 : h.describerecipe.scanMode ≠ "Piezo") :
    create_print_job h = Except.error
      (h.gwl_commands ++
        [GwlCmd.comment "File Generated by DesCRIPT-python alpha",
         GwlCmd.comment "System initialization",
         GwlCmd.invertZAxis (if h.describerecipe.invertZAxis then 1 else 0),
         GwlCmd.describeEmpty,
         GwlCmd.comment "Writing configuration"]) := by
  unfold create_print_job add_writing_configuration add_header add_system_initialisation
  simp only [if_neg h1, if_neg h2]
  simp

theorem C7_counterexample :
    ∃ g, create_print_job ⟨[], ⟨"Stage", true, 1, 36, 20000, 40, 20000, 0.5⟩,
        some (0, 0), "out", []⟩ = Except.error g ∧ g ≠ [] := by
  refine ⟨[GwlCmd.comment "File Generated by DesCRIPT-python alpha",
           GwlCmd.comment "System initialization",
           GwlCmd.invertZAxis 1,
           GwlCmd.describeEmpty,
           GwlCmd.comment "Writing configuration"], ?_, by simp⟩
  unfold create_print_job add_writing_configuration add_header add_system_initialisation
  simp only [if_neg (show ("Stage" : String) ≠ "Galvo" by decide),
    if_neg (show ("Stage" : String) ≠ "Piezo" by decide)]
  simp

theorem C7_scanmode_error_amended_witness :
    create_print_job ⟨[], ⟨"Stage", true, 1, 36, 20000, 40, 20000, 0.5⟩,
        some (0, 0), "out", []⟩ = Except.error
      [GwlCmd.comment "File Generated by DesCRIPT-python alpha",
       GwlCmd.comment "System initialization",
       GwlCmd.invertZAxis 1,
       GwlCmd.describeEmpty,
       GwlCmd.comment "Writing configuration"] := by
  have := C7_scanmode_error_amended
    ⟨[], ⟨"Stage", true, 1, 36, 20000, 40, 20000, 0.5⟩, some (0, 0), "out", []⟩
    (by decide) (by decide)
  simpa using this


-- ===== THEOREMS: Part C =====

set_option maxRecDepth 4000 in
theorem C4_roundtrip_amended (x : DescribeCommandInst)
    (hwf : wellFormedCmd x = true) (hgood : goodKind x.kind = true) :
    parse_describe_line (renderCmd x) false = Except.ok x := by
  cases hget : available_describe_commands[x.kind]? with
  | none =>
    unfold goodKind at hgood
    rw [hget] at hgood
    exact absurd hgood (by simp)
  | some sp =>
  unfold goodKind at hgood
  rw [hget] at hgood
  simp only [Bool.and_eq_true, Bool.or_eq_true, beq_iff_eq, decide_eq_true_eq,
    List.all_eq_true, Bool.not_eq_true', beq_eq_false_iff_ne, ne_eq,
    decide_eq_false_iff_not] at hgood
  obtain ⟨⟨⟨⟨⟨hstyle, hpstyle⟩, hkeyeq⟩, hflen⟩, hfty⟩, hearlier⟩ := hgood
  unfold wellFormedCmd at hwf
  rw [hget] at hwf
  simp only [Bool.and_eq_true, beq_iff_eq, List.all_eq_true] at hwf
  obtain ⟨hlen, hzip⟩ := hwf
  obtain ⟨hlt, hgetE⟩ := List.getElem?_eq_some_iff.1 hget
  -- the rendered line is clsName, a space, then a tail
  obtain ⟨tail, hline, hcast⟩ :
      ∃ tail, renderCmd x = sp.clsName ++ ' ' :: tail ∧
        (sp.fields.mapM fun f => pyCast f.2 (' ' :: tail)) = Except.ok x.vals := by
    cases hfields : sp.fields with
    | nil =>
      have hvnil : x.vals = [] := List.length_eq_zero.1 (by rw [hlen, hfields]; rfl)
      rcases hstyle with hstyle | hstyle
      · refine ⟨[], ?_, ?_⟩
        · simp [renderCmd, hget, hstyle, hvnil, joinSpace]
        · rw [hvnil]
          rfl
      · refine ⟨['\n'], ?_, ?_⟩
        · simp [renderCmd, hget, hstyle, hvnil, joinSpace]
        · rw [hvnil]
          rfl
    | cons f fs =>
      have hfs : fs = [] := by
        rw [hfields] at hflen
        simp only [List.length_cons] at hflen
        exact List.length_eq_zero.1 (by omega)
      subst hfs
      have hv1 : x.vals.length = 1 := by rw [hlen, hfields]; rfl
      obtain ⟨v, hv⟩ := List.length_eq_one.1 hv1
      have hzmem : (v, f) ∈ x.vals.zip sp.fields := by
        rw [hv, hfields]
        exact List.mem_singleton.2 rfl
      obtain ⟨hty, hcanon⟩ := hzip (v, f) hzmem
      have hnotstr : ¬ f.2 = FieldTy.tStr := hfty f (by rw [hfields]; exact List.mem_singleton.2 rfl)
      have hjoin : joinSpace (x.vals.map pyStrVal) = pyStrVal v := by
        rw [hv]
        rfl
      cases hfty2 : f.2 with
      | tStr => exact absurd hfty2 hnotstr
      | tInt =>
        rw [hfty2] at hty
        cases v with
        | pfloat m k => exact absurd hty (by simp [PyVal.ty])
        | pstr s => exact absurd hty (by simp [PyVal.ty])
        | pint n =>
          rcases hstyle with hstyle | hstyle
          · refine ⟨intRepr n, ?_, ?_⟩
            · simp only [renderCmd, hget, hstyle]
              rw [hjoin]
              rfl
            · simp only [List.mapM_cons, List.mapM_nil]
              rw [hfty2]
              unfold pyCast
              rw [pyInt_space_intRepr n]
              rw [hv]
              rfl
          · refine ⟨intRepr n ++ ['\n'], ?_, ?_⟩
            · simp only [renderCmd, hget, hstyle]
              rw [hjoin, List.append_assoc]
              rfl
            · simp only [List.mapM_cons, List.mapM_nil]
              rw [hfty2]
              unfold pyCast
              rw [show (' ' :: (intRepr n ++ ['\n'])) = (' ' :: intRepr n) ++ ['\n'] from rfl]
              rw [pyInt_space_intRepr_nl n]
              rw [hv]
              rfl
      | tFloat =>
        rw [hfty2] at hty
        cases v with
        | pint n => exact absurd hty (by simp [PyVal.ty])
        | pstr s => exact absurd hty (by simp [PyVal.ty])
        | pfloat m k =>
          have hcanonf : k = 0 ∨ m % 10 ≠ 0 := by
            unfold PyVal.canonical at hcanon
            simp only [Bool.or_eq_true, beq_iff_eq, Bool.not_eq_true',
              beq_eq_false_iff_ne, ne_eq] at hcanon
            exact hcanon
          rcases hstyle with hstyle | hstyle
          · refine ⟨floatRepr m k, ?_, ?_⟩
            · simp only [renderCmd, hget, hstyle]
              rw [hjoin]
              rfl
            · simp only [List.mapM_cons, List.mapM_nil]
              rw [hfty2]
              unfold pyCast
              rw [pyFloat_space_floatRepr m k hcanonf]
              rw [hv]
              rfl
          · refine ⟨floatRepr m k ++ ['\n'], ?_, ?_⟩
            · simp only [renderCmd, hget, hstyle]
              rw [hjoin, List.append_assoc]
              rfl
            · simp only [List.mapM_cons, List.mapM_nil]
              rw [hfty2]
              unfold pyCast
              rw [show (' ' :: (floatRepr m k ++ ['\n'])) = (' ' :: floatRepr m k) ++ ['\n'] from rfl]
              rw [pyFloat_space_floatRepr_nl m k hcanonf]
              rw [hv]
              rfl
  rw [hline]
  unfold parse_describe_line
  have hsplit : available_describe_commands =
      available_describe_commands.take x.kind ++
        sp :: available_describe_commands.drop (x.kind + 1) := by
    conv_lhs => rw [← List.take_append_drop x.kind available_describe_commands]
    congr 1
    rw [List.drop_eq_getElem_cons hlt, hgetE]
  rw [hsplit]
  rw [parseLoopAux_append _ 0 _ _ ?hskip]
  case hskip =>
    intro sp' hsp'
    obtain ⟨hnp, hns⟩ := hearlier sp' hsp'
    refine not_prefix_append_space (keyOf sp') sp.clsName tail hns ?_
    intro hpre
    rw [← List.isPrefixOf_iff_prefix] at hpre
    rw [hpre] at hnp
    exact absurd hnp (by simp)
  rw [List.length_take, Nat.zero_add, min_eq_left (le_of_lt hlt)]
  show (if (keyOf sp).isPrefixOf (sp.clsName ++ ' ' :: tail) = true then
      kindParse x.kind sp ((sp.clsName ++ ' ' :: tail).drop (keyOf sp).length)
    else if false = true then Except.ok ⟨0, [.pstr (sp.clsName ++ ' ' :: tail)]⟩
    else parseLoopAux (x.kind + 1) (available_describe_commands.drop (x.kind + 1))
      (sp.clsName ++ ' ' :: tail) false) = Except.ok x
  rw [hkeyeq]
  rw [if_pos (by rw [List.isPrefixOf_iff_prefix]; exact List.prefix_append _ _)]
  rw [List.drop_left]
  unfold kindParse
  rw [hpstyle]
  rw [hcast]
  show Except.ok ⟨x.kind, x.vals⟩ = Except.ok x
  rfl


set_option maxRecDepth 8000 in
/-- C10: with `reset = True`, `read_job_file` first clears the document and
appends the generated header comment, then appends a parsed command for
exactly the lines that are non-empty after stripping surrounding whitespace
(blank lines are silently discarded); consequently, when the source file
contains a blank line, the resulting in-memory document never renders back
verbatim to the source lines, even with `accept_unknown_commands = True`. -/
theorem C10_read_job_file_blank_lines :
    (∀ (lines : List Chars) (st : List DescribeCommandInst) (accept : Bool),
      read_job_file lines st true accept =
        ((((lines.map stripChars).filter fun l => !l.isEmpty).mapM
          fun l => parse_describe_line l accept).map fun cs => headerCmd :: cs)) ∧
    (∀ (lines : List Chars) (st : List DescribeCommandInst)
        (doc : List DescribeCommandInst),
      (∃ bl ∈ lines, stripChars bl = []) →
      read_job_file lines st true true = Except.ok doc →
      get_gwlstrings doc ≠ lines) := by
  constructor
  · intro lines st accept
    show readLinesLoop accept [headerCmd] lines = _
    rw [readLinesLoop_eq]
    rfl
  · intro lines st doc hblank hok heq
    obtain ⟨pre, bl, post, hsplit, hbl, hpre⟩ := firstBlankSplit lines hblank
    have h1 : read_job_file lines st true true =
        Except.ok (headerCmd ::
          (((lines.map stripChars).filter fun l => !l.isEmpty).map
            parseTrueTotal)) := by
      show readLinesLoop true [headerCmd] lines = _
      rw [readLinesLoop_eq, mapM_parse_true]
      rfl
    rw [h1] at hok
    have hdoc : doc = headerCmd ::
        (((lines.map stripChars).filter fun l => !l.isEmpty).map
          parseTrueTotal) := (Except.ok.inj hok).symm
    have hnbs : ((lines.map stripChars).filter fun l => !l.isEmpty)
        = pre.map stripChars ++
          ((post.map stripChars).filter fun l => !l.isEmpty) := by
      rw [hsplit, List.map_append, List.map_cons, hbl, List.filter_append]
      congr 1
      rw [List.filter_eq_self]
      intro y hy
      obtain ⟨x, hx, rfl⟩ := List.mem_map.1 hy
      cases hsx : stripChars x with
      | nil => exact absurd hsx (hpre x hx)
      | cons c cs => rfl
    rw [hdoc, hnbs] at heq
    rw [hsplit] at heq
    unfold get_gwlstrings at heq
    rw [List.map_cons, List.map_append, List.map_append, List.map_map,
      List.map_map] at heq
    exact never_verbatim_chain pre _ bl post hbl hpre heq


set_option maxRecDepth 16000 in
/-- C4 counterexample: `PowerValuesOn` (kind 23) is a valid zero-field kind,
distinct from the unrecognized kind (0) and the comment kind (144), yet
parsing its rendered line does not return it: the earlier registry key
`PowerValues` matches the prefix first and the parse yields kind 22. -/
theorem C4_roundtrip_counterexample :
    wellFormedCmd ⟨23, []⟩ = true ∧ (23 : ℕ) ≠ 0 ∧ (23 : ℕ) ≠ 144 ∧
    parse_describe_line (renderCmd ⟨23, []⟩) false = Except.ok ⟨22, []⟩ ∧
    parse_describe_line (renderCmd ⟨23, []⟩) false ≠ Except.ok ⟨23, []⟩ := by
  refine ⟨by decide, by decide, by decide, by decide, ?_⟩
  intro h
  rw [show parse_describe_line (renderCmd ⟨23, []⟩) false = Except.ok ⟨22, []⟩
    from by decide] at h
  exact absurd (Except.ok.inj h) (by decide)


set_option maxRecDepth 16000 in
theorem C4_roundtrip_amended_witness :
    wellFormedCmd ⟨39, [.pfloat 105 1]⟩ = true ∧ goodKind 39 = true ∧
    parse_describe_line (renderCmd ⟨39, [.pfloat 105 1]⟩) false =
      Except.ok ⟨39, [.pfloat 105 1]⟩ :=
  ⟨by decide, by decide,
    C4_roundtrip_amended ⟨39, [.pfloat 105 1]⟩ (by decide) (by decide)⟩


set_option maxRecDepth 16000 in
/-- C5: the registry key `PowerScaling` is registered, and with
`accept_unknown_commands = False` the line "PowerScaling 1.0" parses through
that kind; but with `accept_unknown_commands = True` the same line is wrapped
into the unrecognized-line kind, because the `elif accept_unknown` branch
sits inside the loop and fires after only the first registry key has been
tested — contradicting the claim that the unrecognized variant is returned
only when no registered keyword matches. -/
theorem C5_accept_unknown_first_key_bug :
    (∃ sp ∈ available_describe_commands, keyOf sp = "PowerScaling".toList) ∧
    parse_describe_line ("PowerScaling 1.0".toList) false =
      Except.ok ⟨9, [.pfloat 1 0]⟩ ∧
    parse_describe_line ("PowerScaling 1.0".toList) true =
      Except.ok ⟨0, [.pstr ("PowerScaling 1.0".toList)]⟩ := by
  refine ⟨⟨mkKindF "PowerScaling" "value", by decide, by decide⟩, by decide,
    by decide⟩


set_option maxRecDepth 16000 in
theorem C10_read_job_file_blank_lines_witness :
    (∃ bl ∈ [['a'], ([] : Chars)], stripChars bl = []) ∧
    read_job_file [['a'], ([] : Chars)] [] true true =
      Except.ok [headerCmd, ⟨0, [.pstr ['a']]⟩] ∧
    get_gwlstrings [headerCmd, ⟨0, [.pstr ['a']]⟩] ≠ [['a'], ([] : Chars)] :=
  ⟨⟨[], by decide, by decide⟩, by decide,
    C10_read_job_file_blank_lines.2 [['a'], ([] : Chars)] []
      [headerCmd, ⟨0, [.pstr ['a']]⟩] ⟨[], by decide, by decide⟩ (by decide)⟩


-- ===== THEOREMS: Part E =====

/-- C9: starting from an empty recipe store, processing any sequence of
targets invokes the external slicer at most once per distinct recipe value
(the invocation log has no duplicates and covers exactly the computed
recipe values), and any two targets whose computed recipes are value-equal
are assigned the same include file. -/
theorem C9_slicer_memoization {R A F : Type} [DecidableEq R]
    (recipeOf : A → R) (mkFile : ℕ → A → F) (targets : List A) :
    ((process_all_cells recipeOf mkFile ⟨[], []⟩ targets).1.invocations).Nodup ∧
    (∀ r, r ∈ (process_all_cells recipeOf mkFile ⟨[], []⟩ targets).1.invocations ↔
      r ∈ targets.map recipeOf) ∧
    (∀ p q, p ∈ (process_all_cells recipeOf mkFile ⟨[], []⟩ targets).2 →
      q ∈ (process_all_cells recipeOf mkFile ⟨[], []⟩ targets).2 →
      recipeOf p.1 = recipeOf q.1 → p.2 = q.2) := by
  obtain ⟨h1, h2, h3, h4, h5⟩ := run_invariant recipeOf mkFile targets ⟨[], []⟩
    rfl List.nodup_nil
  refine ⟨by rw [h1]; exact h2, fun r => ?_, fun p q hp hq hpq => ?_⟩
  · rw [h1, h4 r]
    exact ⟨fun h => h.elim (fun hc => absurd hc (List.not_mem_nil r)) id, Or.inr⟩
  · have hmp := h5 p hp
    have hmq := h5 q hq
    rw [hpq] at hmp
    exact keys_nodup_unique h2 hmp hmq

theorem C9_slicer_memoization_witness :
    (process_all_cells (fun a : ℕ => a) (fun n _ => n + 10) ⟨[], []⟩
      [5, 7, 5]).1.invocations = [5, 7] ∧
    (process_all_cells (fun a : ℕ => a) (fun n _ => n + 10) ⟨[], []⟩
      [5, 7, 5]).2 = [(5, 11), (7, 12), (5, 11)] ∧
    ((5, 11) : ℕ × ℕ).2 = ((5, 11) : ℕ × ℕ).2 :=
  ⟨by decide, by decide,
    (C9_slicer_memoization (fun a : ℕ => a) (fun n _ => n + 10) [5, 7, 5]).2.2
      (5, 11) (5, 11) (by decide) (by decide) rfl⟩
